import Mathlib

set_option maxRecDepth 100000
set_option maxHeartbeats 4000000

/-!
Verification of the cover-letter generator (`main.py`).

The development shallowly embeds the program's pure core:
`unwrap_code_fence`, `parse_llm_payload` (with a model of Python's
`json.loads`), `build_prompt` (with models of `textwrap.dedent` and
`str.strip`), `write_pdf`'s layout loop, `load_job_description`'s
fallback logic, and the write sequence of `main`.

Strings are handled at the `List Char` level; Python string methods
(`strip`, `splitlines`, `lower`, `startswith`, ...) are modelled by
`py*` functions that follow CPython's documented behaviour.
-/

namespace CoverLetters

/-- Characters for which Python's `str.strip()` / `str.isspace()` return
true (the Unicode whitespace set used by CPython). -/
def pyIsSpace (c : Char) : Bool :=
  c.toNat = 0x09 || c.toNat = 0x0A || c.toNat = 0x0B || c.toNat = 0x0C ||
  c.toNat = 0x0D || c.toNat = 0x1C || c.toNat = 0x1D || c.toNat = 0x1E ||
  c.toNat = 0x1F || c.toNat = 0x20 || c.toNat = 0x85 || c.toNat = 0xA0 ||
  c.toNat = 0x1680 ||
  (0x2000 ≤ c.toNat && c.toNat ≤ 0x200A) ||
  c.toNat = 0x2028 || c.toNat = 0x2029 || c.toNat = 0x202F ||
  c.toNat = 0x205F || c.toNat = 0x3000

/-- Python `str.strip()` on a character list: drop whitespace at both ends. -/
def pyStripL (l : List Char) : List Char :=
  ((l.dropWhile pyIsSpace).reverse.dropWhile pyIsSpace).reverse

/-- Python `str.strip()` (no argument: strips Unicode whitespace). -/
def pyStrip (s : String) : String :=
  String.mk (pyStripL s.data)

/-- Line-boundary characters of Python `str.splitlines()`. -/
def isLineBoundary (c : Char) : Bool :=
  c.toNat = 0x0A || c.toNat = 0x0D || c.toNat = 0x0B || c.toNat = 0x0C ||
  c.toNat = 0x1C || c.toNat = 0x1D || c.toNat = 0x1E || c.toNat = 0x85 ||
  c.toNat = 0x2028 || c.toNat = 0x2029

/-- Worker for `str.splitlines()`: accumulates the current line (reversed);
`"\r\n"` counts as a single boundary; a trailing boundary produces no
final empty line. -/
def pySplitlinesAux : List Char → List Char → List (List Char)
  | [], acc => if acc.isEmpty then [] else [acc.reverse]
  | '\r' :: '\n' :: rest, acc => acc.reverse :: pySplitlinesAux rest []
  | c :: rest, acc =>
      if isLineBoundary c then
        acc.reverse :: pySplitlinesAux rest []
      else
        pySplitlinesAux rest (c :: acc)

/-- Python `str.splitlines()` on a character list. -/
def pySplitlinesL (l : List Char) : List (List Char) :=
  pySplitlinesAux l []

/-- Python `str.startswith(prefix)`. -/
def pyStartsWith (l pre : List Char) : Bool :=
  pre.isPrefixOf l

/-- Python `str.endswith(suffix)`. -/
def pyEndsWith (l suf : List Char) : Bool :=
  suf.isSuffixOf l

/-- Python `str.lower()` on one character.  Modelled for ASCII (the only
case the program can reach: it is used to test for the ASCII suffixes
`".pdf"`/`".txt"`, and no non-ASCII character lowercases to an ASCII
one). -/
def pyLowerChar (c : Char) : Char :=
  if 65 ≤ c.toNat && c.toNat ≤ 90 then Char.ofNat (c.toNat + 32) else c

/-- Python `str.isalnum()` on one character.  The program only applies it
after an `isascii()` check has succeeded, so it is modelled on ASCII,
where `isalnum` is exactly letter-or-digit (`0-9A-Za-z`). -/
def pyIsAlnum (c : Char) : Bool :=
  (48 ≤ c.toNat && c.toNat ≤ 57) || (65 ≤ c.toNat && c.toNat ≤ 90) ||
  (97 ≤ c.toNat && c.toNat ≤ 122)

/-- A filename character accepted by the validator's final check (`ch.isalnum() or ch == "_"`). -/
def isWordChar (c : Char) : Bool :=
  pyIsAlnum c || c = '_'

/-- Simple join with `"\n"`, as Python `"\n".join(lines)`. -/
def joinNlL : List (List Char) → List Char
  | [] => []
  | [x] => x
  | x :: y :: xs => x ++ '\n' :: joinNlL (y :: xs)

/-- The code-fence marker `` ``` `` used by `unwrap_code_fence`. -/
def fenceMarker : List Char := ("```").data

/-- `unwrap_code_fence` from `main.py`: strip the text; if it starts with
`` ``` ``, split into lines, drop a first and a last line that start
with `` ``` ``, rejoin with `"\n"` and strip again. -/
def unwrap_code_fence (text : String) : String :=
  let stripped := pyStripL text.data
  if pyStartsWith stripped fenceMarker then
    let lines := pySplitlinesL stripped
    let lines1 :=
      match lines with
      | [] => []
      | h :: t => if pyStartsWith h fenceMarker then t else h :: t
    let lines2 :=
      if pyStartsWith (lines1.getLastD []) fenceMarker then
        lines1.dropLast
      else
        lines1
    String.mk (pyStripL (joinNlL lines2))
  else
    String.mk stripped

/-! ### A model of Python `json.loads`

`JValue` is the shape of a decoded JSON document.  Floats are not given
numeric semantics (no claim depends on them): `jfloat` keeps a lexeme.
-/

inductive JValue where
  | jnull
  | jbool (b : Bool)
  | jint (n : Int)
  | jfloat (lexeme : String)
  | jstr (s : String)
  | jarr (elements : List JValue)
  | jobj (fields : List (String × JValue))

/-- JSON inter-token whitespace accepted by CPython's `json` scanner
(only these four characters, unlike `str.strip`). -/
def jsonWs (c : Char) : Bool :=
  c = ' ' || c = '\t' || c = '\n' || c = '\r'

def skipJsonWs (l : List Char) : List Char :=
  l.dropWhile jsonWs

def hexDigitVal (c : Char) : Option Nat :=
  let n := c.toNat
  if 48 ≤ n && n ≤ 57 then some (n - 48)
  else if 97 ≤ n && n ≤ 102 then some (n - 87)
  else if 65 ≤ n && n ≤ 70 then some (n - 55)
  else none

def hex4 (a b c d : Char) : Option Nat :=
  match hexDigitVal a, hexDigitVal b, hexDigitVal c, hexDigitVal d with
  | some x1, some x2, some x3, some x4 =>
      some (((x1 * 16 + x2) * 16 + x3) * 16 + x4)
  | _, _, _, _ => none

/-- JSON string body parser (after the opening quote), strict mode:
unescaped control characters below `0x20` are rejected, the usual
escapes are decoded, `\uXXXX` surrogate pairs are combined.  A lone
surrogate is rejected here (CPython would keep it, but a lone surrogate
is not a Unicode scalar value and cannot inhabit a Lean `Char`; no
claim depends on such strings). -/
def parseStrAux : Nat → List Char → List Char → Option (List Char × List Char)
  | 0, _, _ => none
  | _ + 1, [], _ => none
  | fuel + 1, c :: rest, acc =>
      if c = '"' then some (acc.reverse, rest)
      else if c = '\\' then
        match rest with
        | [] => none
        | e :: rest2 =>
          if e = '"' then parseStrAux fuel rest2 ('"' :: acc)
          else if e = '\\' then parseStrAux fuel rest2 ('\\' :: acc)
          else if e = '/' then parseStrAux fuel rest2 ('/' :: acc)
          else if e = 'b' then parseStrAux fuel rest2 ('\x08' :: acc)
          else if e = 'f' then parseStrAux fuel rest2 ('\x0C' :: acc)
          else if e = 'n' then parseStrAux fuel rest2 ('\n' :: acc)
          else if e = 'r' then parseStrAux fuel rest2 ('\r' :: acc)
          else if e = 't' then parseStrAux fuel rest2 ('\t' :: acc)
          else if e = 'u' then
            match rest2 with
            | h1 :: h2 :: h3 :: h4 :: rest3 =>
              match hex4 h1 h2 h3 h4 with
              | none => none
              | some n =>
                if 0xD800 ≤ n && n ≤ 0xDBFF then
                  match rest3 with
                  | '\\' :: 'u' :: g1 :: g2 :: g3 :: g4 :: rest4 =>
                    match hex4 g1 g2 g3 g4 with
                    | none => none
                    | some m =>
                      if 0xDC00 ≤ m && m ≤ 0xDFFF then
                        parseStrAux fuel rest4
                          (Char.ofNat (0x10000 + (n - 0xD800) * 0x400 + (m - 0xDC00)) :: acc)
                      else none
                  | _ => none
                else if 0xDC00 ≤ n && n ≤ 0xDFFF then none
                else parseStrAux fuel rest3 (Char.ofNat n :: acc)
            | _ => none
          else none
      else if c.toNat < 0x20 then none
      else parseStrAux fuel rest (c :: acc)

def isDigitChar (c : Char) : Bool :=
  '0' ≤ c && c ≤ '9'

def digitsToNat (l : List Char) : Nat :=
  l.foldl (fun acc c => acc * 10 + (c.toNat - '0'.toNat)) 0

/-- JSON number parser following CPython's `NUMBER_RE`:
`(-?(?:0|[1-9]\d*))(\.\d+)?([eE][-+]?\d+)?`.  Integers become `jint`;
the presence of a fraction or exponent yields `jfloat` (lexeme kept,
numeric float semantics unmodelled). -/
def parseNum (l : List Char) : Option (JValue × List Char) :=
  let (neg, l1) :=
    match l with
    | '-' :: r => (true, r)
    | _ => (false, l)
  let intPart : Option (List Char × List Char) :=
    match l1 with
    | '0' :: r => some (['0'], r)
    | c :: _ =>
        if isDigitChar c && c ≠ '0' then
          some (l1.takeWhile isDigitChar, l1.dropWhile isDigitChar)
        else none
    | [] => none
  match intPart with
  | none => none
  | some (ip, l2) =>
    let (fracPart, l3) :=
      match l2 with
      | '.' :: r =>
          match r with
          | c :: _ =>
              if isDigitChar c then
                ('.' :: r.takeWhile isDigitChar, r.dropWhile isDigitChar)
              else ([], l2)
          | [] => ([], l2)
      | _ => ([], l2)
    let (expPart, l4) :=
      match l3 with
      | e :: r =>
          if e = 'e' || e = 'E' then
            let (sgn, r1) :=
              match r with
              | '+' :: r2 => (['+'], r2)
              | '-' :: r2 => (['-'], r2)
              | _ => (([] : List Char), r)
            match r1 with
            | c :: _ =>
                if isDigitChar c then
                  (e :: sgn ++ r1.takeWhile isDigitChar, r1.dropWhile isDigitChar)
                else ([], l3)
            | [] => ([], l3)
          else ([], l3)
      | [] => ([], l3)
    if fracPart.isEmpty && expPart.isEmpty then
      let v : Int := Int.ofNat (digitsToNat ip)
      some (JValue.jint (if neg then -v else v), l2)
    else
      let lex := (if neg then ['-'] else []) ++ ip ++ fracPart ++ expPart
      some (JValue.jfloat (String.mk lex), l4)

/-- Replace-on-duplicate insertion, the behaviour of building a Python
`dict`: a repeated key overwrites the earlier value in place. -/
def objInsert (k : String) (v : JValue) (acc : List (String × JValue)) :
    List (String × JValue) :=
  if acc.any (fun p => p.1 = k) then
    acc.map (fun p => if p.1 = k then (k, v) else p)
  else
    acc ++ [(k, v)]

mutual

/-- JSON value parser (fuel-indexed recursive descent, mirroring
CPython's scanner: it also accepts the non-standard `NaN`, `Infinity`
and `-Infinity` constants, as `json.loads` does by default). -/
def parseVal : Nat → List Char → Option (JValue × List Char)
  | 0, _ => none
  | fuel + 1, l =>
    match skipJsonWs l with
    | '\x7b' :: r => parseObjBody fuel r
    | '[' :: r => parseArrBody fuel r
    | '"' :: r =>
        match parseStrAux (r.length + 1) r [] with
        | some (content, rest) => some (JValue.jstr (String.mk content), rest)
        | none => none
    | 't' :: 'r' :: 'u' :: 'e' :: r => some (JValue.jbool true, r)
    | 'f' :: 'a' :: 'l' :: 's' :: 'e' :: r => some (JValue.jbool false, r)
    | 'n' :: 'u' :: 'l' :: 'l' :: r => some (JValue.jnull, r)
    | 'N' :: 'a' :: 'N' :: r => some (JValue.jfloat ("nan"), r)
    | 'I' :: 'n' :: 'f' :: 'i' :: 'n' :: 'i' :: 't' :: 'y' :: r =>
        some (JValue.jfloat ("inf"), r)
    | '-' :: 'I' :: 'n' :: 'f' :: 'i' :: 'n' :: 'i' :: 't' :: 'y' :: r =>
        some (JValue.jfloat ("-inf"), r)
    | l' => parseNum l'

/-- Object body after `{`: empty object or a member list. -/
def parseObjBody : Nat → List Char → Option (JValue × List Char)
  | 0, _ => none
  | fuel + 1, l =>
    match skipJsonWs l with
    | '\x7d' :: r => some (JValue.jobj [], r)
    | l' => parseMembers fuel l' []

/-- One-or-more `"key": value` members separated by commas (no trailing
comma), exactly as CPython's object parser. -/
def parseMembers : Nat → List Char → List (String × JValue) →
    Option (JValue × List Char)
  | 0, _, _ => none
  | fuel + 1, l, acc =>
    match skipJsonWs l with
    | '"' :: r =>
      match parseStrAux (r.length + 1) r [] with
      | none => none
      | some (key, rest) =>
        match skipJsonWs rest with
        | ':' :: r2 =>
          match parseVal fuel r2 with
          | none => none
          | some (v, r3) =>
            let acc' := objInsert (String.mk key) v acc
            match skipJsonWs r3 with
            | ',' :: r4 => parseMembers fuel r4 acc'
            | '\x7d' :: r4 => some (JValue.jobj acc', r4)
            | _ => none
        | _ => none
    | _ => none

/-- Array body after `[`: empty array or a value list. -/
def parseArrBody : Nat → List Char → Option (JValue × List Char)
  | 0, _ => none
  | fuel + 1, l =>
    match skipJsonWs l with
    | ']' :: r => some (JValue.jarr [], r)
    | l' => parseElems fuel l' []

/-- One-or-more array elements separated by commas (no trailing comma). -/
def parseElems : Nat → List Char → List JValue → Option (JValue × List Char)
  | 0, _, _ => none
  | fuel + 1, l, acc =>
    match parseVal fuel l with
    | none => none
    | some (v, r) =>
      match skipJsonWs r with
      | ',' :: r2 => parseElems fuel r2 (acc ++ [v])
      | ']' :: r2 => some (JValue.jarr (acc ++ [v]), r2)
      | _ => none

end

/-- Model of `json.loads`: parse one value, allow only trailing JSON
whitespace, otherwise fail (`none` stands for `json.JSONDecodeError`). -/
def json_loads (s : String) : Option JValue :=
  match parseVal (s.data.length + 1) s.data with
  | some (v, rest) => if skipJsonWs rest = [] then some v else none
  | none => none

/-- Python `dict.get` on the decoded object's field list. -/
def jLookup (fields : List (String × JValue)) (k : String) : Option JValue :=
  (fields.find? (fun p => p.1 = k)).map (fun p => p.2)

mutual

/-- Python `repr` of a decoded JSON value, used only through `str()` on
non-string values.  String escaping inside `repr` is not modelled (it
is reachable only for container-valued payload fields, which no claim
exercises). -/
def pyRepr : JValue → String
  | .jnull => "None"
  | .jbool true => "True"
  | .jbool false => "False"
  | .jint n => toString n
  | .jfloat lx => lx
  | .jstr s => "\x27" ++ s ++ "\x27"
  | .jarr es => "[" ++ pyReprElems es ++ "]"
  | .jobj fs => "\x7b" ++ pyReprFields fs ++ "\x7d"

def pyReprElems : List JValue → String
  | [] => ""
  | [x] => pyRepr x
  | x :: xs => pyRepr x ++ ", " ++ pyReprElems xs

def pyReprFields : List (String × JValue) → String
  | [] => ""
  | [(k, v)] => "\x27" ++ k ++ "\x27: " ++ pyRepr v
  | (k, v) :: xs => "\x27" ++ k ++ "\x27: " ++ pyRepr v ++ ", " ++ pyReprFields xs

end

/-- Python `str()` of a decoded JSON value (as applied to
`payload.get(...)` in `parse_llm_payload`). -/
def pyStr : JValue → String
  | .jstr s => s
  | v => pyRepr v

/-- The extension-stripping and final strip applied to the filename by
`parse_llm_payload` (lines 188–193 of `main.py`): drop a trailing
`.pdf` (case-insensitive), then a trailing `.txt`, then `strip()`. -/
def clean_filename_steps (f : List Char) : List Char :=
  let f2 := if pyEndsWith (f.map pyLowerChar) (".pdf").data then
      f.take (f.length - 4) else f
  let f3 := if pyEndsWith (f2.map pyLowerChar) (".txt").data then
      f2.take (f2.length - 4) else f2
  pyStripL f3

/-- The full cleanup `parse_llm_payload` applies to a raw filename. -/
def cleaned_filename (f : String) : String :=
  String.mk (clean_filename_steps (pyStripL f.data))

/-- The validation chain of `parse_llm_payload` (lines 178–205 of
`main.py`), applied to the raw `str(payload.get(...))` values: both are
stripped, then the checks run in the code's order — empty filename,
empty letter, path separators, extension stripping, empty-after-cleanup,
non-ASCII, space, charset — and on success the cleaned filename and
stripped letter are returned. -/
def validate_payload (filename letter : String) : Except String (String × String) :=
  let f := pyStripL filename.data
  let l := pyStripL letter.data
  if f = [] then .error ("LLM output missing filename.")
  else if l = [] then .error ("LLM output missing letter text.")
  else if f.any (fun c => c = '/' || c = '\\') then
    .error ("LLM filename must not include path separators.")
  else
    let f4 := clean_filename_steps f
    if f4 = [] then .error ("LLM output filename is empty after cleanup.")
    else if !(f4.all (fun c => c.toNat ≤ 127)) then
      .error ("LLM filename must use ASCII characters only.")
    else if f4.any (fun c => c = ' ') then
      .error ("LLM filename must use underscores instead of spaces.")
    else if !(f4.all isWordChar) then
      .error ("LLM filename must contain only letters, numbers, and underscores.")
    else
      .ok (String.mk f4, String.mk l)

/-- `parse_llm_payload` from `main.py`: unwrap code fences, decode JSON
(`ValueError` on failure), require an object, read the two fields with
`str(payload.get(key, ""))`, and validate. -/
def parse_llm_payload (raw_content : String) : Except String (String × String) :=
  let cleaned := unwrap_code_fence raw_content
  match json_loads cleaned with
  | none => .error ("LLM output was not valid JSON.")
  | some payload =>
    match payload with
    | .jobj fields =>
        validate_payload
          (pyStr ((jLookup fields ("filename")).getD (.jstr (""))))
          (pyStr ((jLookup fields ("letter")).getD (.jstr (""))))
    | _ => .error ("LLM output JSON must be an object.")

end CoverLetters

namespace CoverLetters

/-! ### The `write_pdf` layout loop -/

/-- The whitespace set of the `textwrap` module (`string.whitespace`). -/
def twIsSpace (c : Char) : Bool :=
  c = '\t' || c = '\n' || c.toNat = 0x0B || c.toNat = 0x0C || c = '\r' || c = ' '

/-- Split a paragraph into whitespace-separated words (non-empty runs). -/
def splitWordsAux : List Char → List Char → List (List Char)
  | [], acc => if acc.isEmpty then [] else [acc.reverse]
  | c :: rest, acc =>
      if twIsSpace c then
        if acc.isEmpty then splitWordsAux rest []
        else acc.reverse :: splitWordsAux rest []
      else splitWordsAux rest (c :: acc)

/-- Greedy line packing of `textwrap.wrap(text, width)` with its default
options: words are packed onto lines joined by single spaces while the
line stays within `width`; a word longer than `width` is broken.  (The
break-position subtleties of `textwrap` for over-long or hyphenated
words are not modelled; the claims use only line counts of short,
space-separated words, where `textwrap.wrap` is exactly this greedy
packing.)  Fuel-indexed for totality. -/
def packWordsAux : Nat → Nat → List (List Char) → List Char → List (List Char)
  | 0, _, _, _ => []
  | fuel + 1, width, ws, cur =>
    match ws with
    | [] => if cur.isEmpty then [] else [cur]
    | w :: rest =>
      if cur.isEmpty then
        if w.length ≤ width then packWordsAux fuel width rest w
        else (w.take width) :: packWordsAux fuel width (w.drop width :: rest) []
      else
        if cur.length + 1 + w.length ≤ width then
          packWordsAux fuel width rest (cur ++ ' ' :: w)
        else
          cur :: packWordsAux fuel width (w :: rest) []

/-- `textwrap.wrap(text, width)` as used by `write_pdf` (width 95). -/
def pyWrap (width : Nat) (text : List Char) : List (List Char) :=
  let ws := splitWordsAux text []
  packWordsAux (2 * text.length + 2 * ws.length + 2) width ws []

/-- Python `letter_text.split("\n\n")`: non-overlapping, leftmost-first. -/
def splitDoubleNlAux : List Char → List Char → List (List Char)
  | [], acc => [acc.reverse]
  | '\n' :: '\n' :: rest, acc => acc.reverse :: splitDoubleNlAux rest []
  | c :: rest, acc => splitDoubleNlAux rest (c :: acc)

/-- The paragraphs `write_pdf` iterates over. -/
def splitParagraphs (letter : String) : List (List Char) :=
  splitDoubleNlAux letter.data []

/-- Events emitted against the reportlab canvas. -/
inductive PdfEvent where
  | draw (y : Int) (line : String)
  | newPage
  | setFont

/-- `y_margin` in `write_pdf` (72 points). -/
def y_margin : Int := 72

/-- `line_height` in `write_pdf` (14 points). -/
def line_height : Int := 14

/-- The starting cursor `height - y_margin` for US-letter pages
(`LETTER = (612, 792)` in reportlab). -/
def page_top : Int := 792 - y_margin

/-- One iteration of the inner line loop of `write_pdf`: draw the line
at the cursor, descend one line height, and start a new page (resetting
font and cursor) if the cursor fell below the bottom margin. -/
def drawLine (st : Int × List PdfEvent) (line : List Char) : Int × List PdfEvent :=
  let evs := st.2 ++ [PdfEvent.draw st.1 (String.mk line)]
  let y2 := st.1 - line_height
  if y2 < y_margin then (page_top, evs ++ [PdfEvent.newPage, PdfEvent.setFont])
  else (y2, evs)

/-- One iteration of the paragraph loop of `write_pdf`: wrap the
paragraph at width 95, draw its lines, then descend one further line
height (the inter-paragraph gap, applied without a page-break check). -/
def paraStep (st : Int × List PdfEvent) (para : List Char) : Int × List PdfEvent :=
  let st2 := (pyWrap 95 para).foldl drawLine st
  (st2.1 - line_height, st2.2)

/-- The canvas event trace of `write_pdf letter_text`. -/
def write_pdf_layout (letter : String) : List PdfEvent :=
  ((splitParagraphs letter).foldl paraStep (page_top, [PdfEvent.setFont])).2

/-- Number of pages of the produced document: `c.showPage()` events
plus the final page flushed by `c.save()`. -/
def pageCount (evs : List PdfEvent) : Nat :=
  1 + (evs.filter (fun e => match e with | .newPage => true | _ => false)).length

/-- `true` iff some line is drawn strictly below the bottom margin. -/
def hasDrawBelowMargin (evs : List PdfEvent) : Bool :=
  evs.any (fun e => match e with | .draw y _ => decide (y < y_margin) | _ => false)

/-- Filesystem/canvas effects of a full `write_pdf` call, including the
`mkdir(parents=True)` on the output directory and the final save. -/
inductive OutEvent where
  | mkdirParents (dir : String)
  | pdf (e : PdfEvent)
  | savePdf (path : String)

/-- `Path.parent` of a POSIX path string (model: text before the last
slash). -/
def parentDir (p : String) : String :=
  String.mk ((p.data.reverse.dropWhile (fun c => c ≠ '/')).drop 1).reverse

/-- `write_pdf letter_text output_path` as an effect trace. -/
def write_pdf_run (letter : String) (output_path : String) : List OutEvent :=
  OutEvent.mkdirParents (parentDir output_path)
    :: (write_pdf_layout letter).map OutEvent.pdf
    ++ [OutEvent.savePdf output_path]

/-- The canvas events of a `write_pdf` run (layout only, no filesystem). -/
def layoutOf (evs : List OutEvent) : List PdfEvent :=
  evs.filterMap (fun e => match e with | .pdf x => some x | _ => none)

/-! ### The write sequence of `main` -/

/-- Output actions `main` can perform after generation. -/
inductive MainEvent where
  | printLetter (text : String)
  | writeTextFile (path : String) (text : String)
  | writePdfFile (path : String) (text : String)

/-- `BASE_OUTPUT_DIR` from `main.py`. -/
def BASE_OUTPUT_DIR : String := "/Users/hanu/Documents/Personal/Cover letters"

/-- `default_pdf_path` from `main.py`. -/
def default_pdf_path (filename : String) : String :=
  BASE_OUTPUT_DIR ++ "/" ++ filename ++ ".pdf"

/-- The output steps of `main` given the raw model response: parse the
payload (a `ValueError` propagates and aborts the run before any
output), then print the letter, optionally write the text file, and
write the PDF unless skipped. -/
def main_events (raw_content : String) (text_out : Option String)
    (skip_pdf : Bool) (pdf_out : Option String) : List MainEvent :=
  match parse_llm_payload raw_content with
  | .error _ => []
  | .ok (filename, letter_text) =>
      [MainEvent.printLetter letter_text]
      ++ (match text_out with
          | some p => [MainEvent.writeTextFile p letter_text]
          | none => [])
      ++ (if skip_pdf then []
          else [MainEvent.writePdfFile (pdf_out.getD (default_pdf_path filename)) letter_text])

/-- The file-writing events among `main`'s outputs (stdout excluded). -/
def main_file_writes (raw_content : String) (text_out : Option String)
    (skip_pdf : Bool) (pdf_out : Option String) : List MainEvent :=
  (main_events raw_content text_out skip_pdf pdf_out).filter
    (fun e => match e with | .printLetter _ => false | _ => true)

/-! ### `load_job_description` -/

/-- Outcome of the `candidate_path.exists()` call (it can itself raise
`OSError`, e.g. a permission failure on a parent directory, which the
surrounding `try` catches). -/
inductive ExistsOutcome where
  | isTrue
  | isFalse
  | raisesOSError

/-- Outcome of `candidate_path.read_text(encoding="utf-8")`: success,
an `OSError` (not found, permission, I/O error, directory), or a
`UnicodeDecodeError` (a `ValueError`) for a file whose bytes are not
valid UTF-8. -/
inductive ReadOutcome where
  | success (content : String)
  | raisesOSError
  | raisesUnicodeDecodeError

/-- `load_job_description` from `main.py`: the `except OSError` clause
falls back to the trimmed input value, but a `UnicodeDecodeError` from
`read_text` is a `ValueError`, not an `OSError`, and propagates
(modelled by `.error`). -/
def load_job_description (ex : ExistsOutcome) (rd : ReadOutcome)
    (value : String) : Except String String :=
  match ex with
  | .raisesOSError => .ok (pyStrip value)
  | .isFalse => .ok (pyStrip value)
  | .isTrue =>
    match rd with
    | .success content => .ok (pyStrip content)
    | .raisesOSError => .ok (pyStrip value)
    | .raisesUnicodeDecodeError => .error ("UnicodeDecodeError")

/-! ### `build_prompt` and a model of `textwrap.dedent` -/

/-- A line consisting solely of spaces/tabs and not empty (the lines
`textwrap.dedent`'s `_whitespace_only_re` blanks out). -/
def wsOnlyNonempty (l : List Char) : Bool :=
  !l.isEmpty && l.all (fun c => c = ' ' || c = '\t')

/-- Normalisation `dedent` applies to whitespace-only lines. -/
def emptyWsOnly (l : List Char) : List Char :=
  if wsOnlyNonempty l then [] else l

/-- The leading space/tab run of a line. -/
def lineIndent (l : List Char) : List Char :=
  l.takeWhile (fun c => c = ' ' || c = '\t')

/-- Whether a line contains a character other than space/tab (the lines
whose indents participate in `dedent`'s margin computation). -/
def hasContent (l : List Char) : Bool :=
  l.any (fun c => !(c = ' ' || c = '\t'))

/-- Longest common prefix of two character lists. -/
def commonPrefix : List Char → List Char → List Char
  | [], _ => []
  | _, [] => []
  | a :: as, b :: bs => if a = b then a :: commonPrefix as bs else []

/-- One step of `dedent`'s margin fold (CPython's loop over the indents
of content lines). -/
def marginStep (m : Option (List Char)) (l : List Char) : Option (List Char) :=
  if hasContent l then
    let ind := lineIndent l
    match m with
    | none => some ind
    | some mg =>
        if pyStartsWith ind mg then some mg
        else if pyStartsWith mg ind then some ind
        else some (commonPrefix mg ind)
  else m

/-- The common leading-whitespace margin `dedent` computes. -/
def computeMargin (lines : List (List Char)) : Option (List Char) :=
  lines.foldl marginStep none

/-- Plain split on `'\n'` (Python `text.split("\n")`), always returning
at least one (possibly empty) line. -/
def splitNl : List Char → List (List Char)
  | [] => [[]]
  | c :: r => if c = '\n' then [] :: splitNl r else (splitNl r).modifyHead (fun h => c :: h)

/-- The last line of a split (the line an appended string continues). -/
def lastLine (xs : List Char) : List Char :=
  (splitNl xs).getLastD []

/-- Removal of the margin from a line (`(?m)^margin` substitution). -/
def stripMarginLine (mg l : List Char) : List Char :=
  if pyStartsWith l mg then l.drop mg.length else l

/-- `textwrap.dedent`: blank out whitespace-only lines, compute the
common margin of content lines, and strip it when non-empty. -/
def pyDedent (s : String) : String :=
  let lines := (splitNl s.data).map emptyWsOnly
  let lines2 :=
    match computeMargin lines with
    | some mg => if mg.isEmpty then lines else lines.map (stripMarginLine mg)
    | none => lines
  String.mk (joinNlL lines2)

end CoverLetters

namespace CoverLetters

/-- Raw literal transcribed from `main.py`. -/
def summaryLiteral : String :=
  "\n"
  ++ "    Hanupratap Singh Chauhan\n"
  ++ "    +1-510-684-9740| hanupratap.chauhan@berkeley.edu | linkedin.com/in/hanupratap | github.com/hanupratap\n"
  ++ "\n"
  ++ "    Education\n"
  ++ "    University of California, Berkeley – Haas School of Business\tExpected March 2026\n"
  ++ "    Master of Financial Engineering\tBerkeley, CA\n"
  ++ "\n"
  ++ "    Birla Institute of Technology & Science, Pilani\tJuly 2021\n"
  ++ "    Bachelor of Electrical and Electronics Engineering\tHyderabad, India\n"
  ++ "\n"
  ++ "    Professional Experience\n"
  ++ "    PanAgora Asset Management\tBoston, MA\n"
  ++ "    Quantitative Research Intern, Dynamic Equity\tOct 2025 – Jan 2026\n"
  ++ "    Earnings-Call Audio Alpha (Project)\n"
  ++ "    Timestamp Extraction: Replaced FactSet timestamps with NVIDIA NeMo forced alignment on Azure GPUs; aligned 253K+ calls (2.7TB) to speaker timestamps (30s/call, 99.9% success) and saved ~$36K/yr.\n"
  ++ "    Feature Extraction: Extracted 50+ features (pitch, stability, spectral texture) via Librosa, Praat, PyTorch.\n"
  ++ "    Factor + Signal Build: Aggregated segment features into 465 stock factors in Polars (speaker weights + cross-sectional standardization), then combined into one signal using Ridge/XGBoost/ElasticNet.\n"
  ++ "    Performance: IC t-stat 3.2 and IR 1.23 on US large-cap equities (5D horizon, 13-year backtest; Ridge).\n"
  ++ "\n"
  ++ "    J.P. Morgan\tMumbai, India\n"
  ++ "    Quantitative Researcher, Equities QIS (Quantitative Investment Strategies)\tJul 2021 – Mar 2025\n"
  ++ "    Systematic Execution: Developed and deployed execution logic for 40+ systematic strategies (~$30B notional) in a shared Python framework adopted by 4 desks; standardized workflows and reduced manual execution risk.\n"
  ++ "    Risk-Parity Optimizer: Implemented a CCD-based risk-parity solver ~20% faster than CVXOPT to scale optimization across large instrument universes.\n"
  ++ "    Global CTA: Implemented trend-following futures across 5 asset classes using a custom momentum signal with 10% vol targeting and risk-parity sizing.\n"
  ++ "    Equity Factor L/S: Built delta-neutral Value/Momentum/Quality long/short portfolios with liquidity + borrow-aware constraints; maintained |beta|<0.05.\n"
  ++ "    Options: Backtested rolling index collars (OTM put-spread + covered call) with delta-based strike/roll rules and Greeks/risk monitoring to quantify protection vs carry.\n"
  ++ "    Index Product Delivery: Led quant delivery for S&P/BlackRock index products; owned methodology specs, backtest validation, and production handoff through launch.\n"
  ++ "\n"
  ++ "    Projects\n"
  ++ "    Agentic Investment Research | GQG Partners\tAug 2025 – Oct 2025\n"
  ++ "    Built a LangGraph Supervisor/Worker multi-agent system for fundamental research using ReAct-style retrieval/tool-use and a ReWOO-like plan→write flow; enforced claim→evidence→citation outputs with citation-coverage + contradiction checks to generate auditable investment memos.\n"
  ++ "\n"
  ++ "    FinBERT-Based FOMC Sentiment Rotation Strategy\tApr 2024 – May 2024\n"
  ++ "    Built an event-driven strategy scoring FOMC text with FinBERT and rotating SPY vs 7–10Y Treasuries using calibrated thresholds, volatility targeting, and transaction-cost modeling; backtests delivered comparable returns to SPY with ~7% lower maximum drawdown.\n"
  ++ "\n"
  ++ "    Relevant Skills & Interests\n"
  ++ "    Languages: Python, C++, SQL\n"
  ++ "    ML/Data: PyTorch, scikit-learn, XGBoost, Polars, Pandas, NumPy; JAX, NeMo, LangGraph\n"
  ++ "    Quant/Infra: Factor models (Barra/PCA), time series, convex optimization, risk parity; Docker, Git, distributed pipelines\n"
  ++ "    Interests: Skiing, scuba diving, basketball, cinema\n"
  ++ "    "

def sampleLetterLiteral : String :=
  "\n"
  ++ "    Dear Hiring Team,\n"
  ++ "\n"
  ++ "    I\x27m applying for the [Role] position at [Company] in [Location]. Most recently, during my internship at PanAgora Asset Management, I built a production-grade research pipeline from end to end and delivered both measurable investment impact (IC t-stat 3.2; IR 1.23) and meaningful operational savings ($36k/yr), work that resulted in a full-time offer.\n"
  ++ "\n"
  ++ "    Previously, I spent ~4 years in Equities QIS at J.P. Morgan building systematic strategies and research infrastructure. I’m currently an MFE candidate at UC Berkeley (expected March 2026), where I continue to deepen my work in statistical learning, optimization, and quantitative modeling.\n"
  ++ "\n"
  ++ "    I\x27m interested in teams that combine strong research fundamentals with pragmatic engineering to produce scalable, robust alpha. I’d welcome the chance to discuss how my experience in systematic research and productionizing models can contribute to [Company].\n"
  ++ "\n"
  ++ "    Best regards,\n"
  ++ "    Hanupratap Singh Chauhan\n"
  ++ "    "

def promptPart1 : String :=
  "\n"
  ++ "        Write a professional cover letter.\n"
  ++ "        Rules:\n"
  ++ "        - Use ONLY facts from the summary or sample\n"
  ++ "        - Use simple and easy to read language, avoiding complex vocabulary\n"
  ++ "        - 120-180 words\n"
  ++ "        - Match the tone and structure of the sample\n"
  ++ "        - Do NOT invent metrics or offers\n"
  ++ "        - Return a JSON object with keys \"filename\" and \"letter\"\n"
  ++ "        - \"filename\" must be companyName_title using underscores instead of spaces (ASCII letters/numbers/underscore only, no extension)\n"
  ++ "        - \"letter\" must be the final letter text only\n"
  ++ "        - Encode line breaks in \"letter\" as \\n so the JSON is valid\n"
  ++ "        - Do not wrap the JSON in code fences\n"
  ++ "        - Tailor the letter to the job description if provided; otherwise keep it general\n"
  ++ "        - Use the company name and role title from the job description; do not leave placeholders\n"
  ++ "\n"
  ++ "        Job description (optional):\n"
  ++ "        "

def promptPart2 : String :=
  "\n"
  ++ "\n"
  ++ "        Candidate summary:\n"
  ++ "        "

def promptPart3 : String :=
  "\n"
  ++ "\n"
  ++ "        Sample letter:\n"
  ++ "        "

def promptPart4 : String :=
  "\n"
  ++ "        "

/-- `DEFAULT_SUMMARY` from `main.py` (`dedent(...).strip()`). -/
def DEFAULT_SUMMARY : String := pyStrip (pyDedent summaryLiteral)

/-- `DEFAULT_SAMPLE_LETTER` from `main.py` (`dedent(...).strip()`). -/
def DEFAULT_SAMPLE_LETTER : String := pyStrip (pyDedent sampleLetterLiteral)

/-- The interpolated f-string of `build_prompt`, before `dedent`/`strip`. -/
def promptArg (job_description : String) : String :=
  promptPart1 ++ job_description ++ promptPart2 ++ DEFAULT_SUMMARY
    ++ promptPart3 ++ DEFAULT_SAMPLE_LETTER ++ promptPart4

/-- `build_prompt` from `main.py`: the interpolated f-string passed
through `dedent(...).strip()`. -/
def build_prompt (job_description : String) : String :=
  pyStrip (pyDedent (promptArg job_description))

end CoverLetters

namespace CoverLetters

/-- Whether a decoded JSON value is an object (`isinstance(payload, dict)`). -/
def isJObj : JValue → Bool
  | .jobj _ => true
  | _ => false

/-- The filename conditions under which the validator rejects: a path
separator in the trimmed filename, or a cleaned filename (after
trimming, extension stripping and re-trimming) that is empty or
contains a non-ASCII character, a space, or a character outside
`[A-Za-z0-9_]`. -/
def filenameRejected (f : String) : Prop :=
  (pyStripL f.data).any (fun c => c = '/' || c = '\\') = true
  ∨ cleaned_filename f = ""
  ∨ (cleaned_filename f).data.any (fun c => !(c.toNat ≤ 127)) = true
  ∨ (cleaned_filename f).data.any (fun c => c = ' ') = true
  ∨ (cleaned_filename f).data.any (fun c => !(isWordChar c)) = true

/-- The property "if this event draws a text line, it draws it at height
at least `b`". -/
def drawYge (b : Int) : PdfEvent → Prop
  | .draw y _ => b ≤ y
  | _ => True

/-- Drop a final empty line (the behaviour of `str.splitlines()` on a
trailing line boundary). -/
def dropFinalEmpty : List (List Char) → List (List Char)
  | [] => []
  | [x] => if x.isEmpty then [] else [x]
  | x :: y :: xs => x :: dropFinalEmpty (y :: xs)

/-- Eight-space indent used by the prompt template's lines. -/
def sp8C : List Char := ("        ").data

/-- Prompt template header (`promptPart1` without its final newline and
trailing indent), up to the line "Job description (optional):". -/
def q1C : String :=
  "\n"
  ++ "        Write a professional cover letter.\n"
  ++ "        Rules:\n"
  ++ "        - Use ONLY facts from the summary or sample\n"
  ++ "        - Use simple and easy to read language, avoiding complex vocabulary\n"
  ++ "        - 120-180 words\n"
  ++ "        - Match the tone and structure of the sample\n"
  ++ "        - Do NOT invent metrics or offers\n"
  ++ "        - Return a JSON object with keys \"filename\" and \"letter\"\n"
  ++ "        - \"filename\" must be companyName_title using underscores instead of spaces (ASCII letters/numbers/underscore only, no extension)\n"
  ++ "        - \"letter\" must be the final letter text only\n"
  ++ "        - Encode line breaks in \"letter\" as \\n so the JSON is valid\n"
  ++ "        - Do not wrap the JSON in code fences\n"
  ++ "        - Tailor the letter to the job description if provided; otherwise keep it general\n"
  ++ "        - Use the company name and role title from the job description; do not leave placeholders\n"
  ++ "\n"
  ++ "        Job description (optional):"

/-- Header line "Candidate summary:" of the prompt template. -/
def c2C : String := "        Candidate summary:"

/-- Header line "Sample letter:" of the prompt template. -/
def c3C : String := "        Sample letter:"

/-- Contact line of `DEFAULT_SUMMARY`: a content line with no leading
whitespace, which forces `dedent`'s margin on the prompt to be empty. -/
def zeroLine : List Char :=
  ("+1-510-684-9740| hanupratap.chauhan@berkeley.edu | linkedin.com/in/hanupratap | github.com/hanupratap").data

/-! ### Basic lemmas about the string primitives -/

theorem dropWhile_eq_self_of_all (p : Char → Bool) (l : List Char)
    (h : ∀ c ∈ l, p c = false) : l.dropWhile p = l := by
  cases l with
  | nil => rfl
  | cons a t => simp [List.dropWhile_cons, h a (by simp)]

theorem pyStripL_eq_self {l : List Char} (h : ∀ c ∈ l, pyIsSpace c = false) :
    pyStripL l = l := by
  unfold pyStripL
  rw [dropWhile_eq_self_of_all _ _ h]
  rw [dropWhile_eq_self_of_all _ _ (by
    intro c hc
    exact h c (List.mem_reverse.mp hc))]
  simp

theorem char_eq_of_toNat_eq {c d : Char} (h : c.toNat = d.toNat) : c = d := by
  have h2 := Char.ofNat_toNat c
  rw [h] at h2
  rw [← h2, Char.ofNat_toNat]

theorem char_toNat_ofNat {n : Nat} (h : n < 55296) : (Char.ofNat n).toNat = n := by
  unfold Char.ofNat
  rw [dif_pos (Or.inl (by omega : n < 55296))]
  simp [Char.ofNatAux, Char.toNat, UInt32.ofNat', UInt32.toNat]

theorem wordChar_toNat {c : Char} (h : isWordChar c = true) :
    (48 ≤ c.toNat ∧ c.toNat ≤ 57) ∨ (65 ≤ c.toNat ∧ c.toNat ≤ 90) ∨
    (97 ≤ c.toNat ∧ c.toNat ≤ 122) ∨ c.toNat = 95 := by
  simp only [isWordChar, pyIsAlnum, Bool.or_eq_true, decide_eq_true_eq,
    Bool.and_eq_true] at h
  rcases h with ((⟨h1, h2⟩ | ⟨h1, h2⟩) | ⟨h1, h2⟩) | h1
  · exact Or.inl ⟨by simpa using h1, by simpa using h2⟩
  · exact Or.inr (Or.inl ⟨by simpa using h1, by simpa using h2⟩)
  · exact Or.inr (Or.inr (Or.inl ⟨by simpa using h1, by simpa using h2⟩))
  · subst h1; exact Or.inr (Or.inr (Or.inr rfl))

theorem wordChar_not_space {c : Char} (h : isWordChar c = true) :
    pyIsSpace c = false := by
  have hb := wordChar_toNat h
  simp only [pyIsSpace, Bool.or_eq_false_iff, decide_eq_false_iff_not,
    Bool.and_eq_false_iff, decide_eq_false_iff_not]
  omega

theorem wordChar_ne {c : Char} (h : isWordChar c = true) {d : Char}
    (hd : d.toNat = 47 ∨ d.toNat = 92 ∨ d.toNat = 32 ∨ d.toNat = 46) : c ≠ d := by
  intro he
  subst he
  have hb := wordChar_toNat h
  omega

end CoverLetters

namespace CoverLetters

theorem stringMk_data (s : String) : String.mk s.data = s := by
  cases s
  rfl

theorem string_eq_empty_iff (s : String) : s = "" ↔ s.data = [] := by
  constructor
  · intro h
    rw [h]
  · intro h
    rw [← stringMk_data s, h]

theorem pyLowerChar_cases (c : Char) :
    pyLowerChar c = c ∨
    (65 ≤ c.toNat ∧ c.toNat ≤ 90 ∧ (pyLowerChar c).toNat = c.toNat + 32) := by
  unfold pyLowerChar
  split
  · rename_i h
    simp only [Bool.and_eq_true, decide_eq_true_eq] at h
    right
    exact ⟨h.1, h.2, char_toNat_ofNat (by omega)⟩
  · left
    rfl

theorem char_of_lower {c d : Char} (h : pyLowerChar c = d) :
    c.toNat = d.toNat ∨ (65 ≤ c.toNat ∧ c.toNat ≤ 90 ∧ c.toNat + 32 = d.toNat) := by
  rcases pyLowerChar_cases c with h1 | ⟨h1, h2, h3⟩
  · left
    rw [← h, h1]
  · right
    exact ⟨h1, h2, by rw [← h, h3]⟩

/-- Characters of a suffix whose lowercasing is `".pdf"` or `".txt"` are
never whitespace, slashes or backslashes. -/
theorem sfx_char_facts {sfx target : List Char}
    (hm : sfx.map pyLowerChar = target)
    (ht : ∀ d ∈ target, d.toNat = 46 ∨ d.toNat = 112 ∨ d.toNat = 100 ∨
      d.toNat = 102 ∨ d.toNat = 116 ∨ d.toNat = 120) :
    ∀ c ∈ sfx, pyIsSpace c = false ∧ c ≠ '/' ∧ c ≠ '\\' := by
  intro c hc
  have hmem : pyLowerChar c ∈ target := by
    rw [← hm]
    exact List.mem_map_of_mem _ hc
  have hd := ht _ hmem
  have hcn := char_of_lower (c := c) (d := pyLowerChar c) rfl
  have hrange : c.toNat = 46 ∨ c.toNat = 112 ∨ c.toNat = 100 ∨ c.toNat = 102 ∨
      c.toNat = 116 ∨ c.toNat = 120 ∨ c.toNat = 80 ∨ c.toNat = 68 ∨
      c.toNat = 70 ∨ c.toNat = 84 ∨ c.toNat = 88 := by omega
  refine ⟨?_, ?_, ?_⟩
  · simp only [pyIsSpace, Bool.or_eq_false_iff, decide_eq_false_iff_not,
      Bool.and_eq_false_iff, decide_eq_false_iff_not]
    omega
  · intro he
    have : c.toNat = 47 := by rw [he]; rfl
    omega
  · intro he
    have : c.toNat = 92 := by rw [he]; rfl
    omega

theorem endsWith_false_of_no_dot {l t : List Char} (hd : ('.' : Char) ∈ t)
    (hnd : ('.' : Char) ∉ l) : pyEndsWith l t = false := by
  cases hE : pyEndsWith l t
  · rfl
  · exfalso
    have hsuf : t <:+ l := by
      rw [← List.isSuffixOf_iff_suffix]
      exact hE
    exact hnd (hsuf.subset hd)

theorem no_dot_in_lower {g : List Char} (hg : ∀ c ∈ g, isWordChar c = true) :
    ('.' : Char) ∉ g.map pyLowerChar := by
  intro hmem
  rcases List.mem_map.mp hmem with ⟨c, hc, hlow⟩
  have hw := wordChar_toNat (hg c hc)
  have h46 : ('.' : Char).toNat = 46 := rfl
  rcases char_of_lower hlow with h | ⟨h1, h2, h3⟩ <;> omega

theorem isSuffix_of_append {x A B : List Char} (h : x <:+ A ++ B)
    (hl : x.length ≤ B.length) : x <:+ B := by
  rw [← List.reverse_prefix] at h ⊢
  rw [List.reverse_append] at h
  rw [List.prefix_iff_eq_take] at h ⊢
  rw [List.take_append_of_le_length (by simpa using hl)] at h
  exact h

end CoverLetters

namespace CoverLetters

/-! ### Evaluation lemmas for the validator -/

theorem data_mk (l : List Char) : (String.mk l).data = l := rfl

theorem validate_empty_filename (f l : String) (hf : pyStripL f.data = []) :
    validate_payload f l = .error ("LLM output missing filename.") := by
  simp only [validate_payload]
  rw [if_pos hf]

theorem validate_letter_error (f l : String) (hf : pyStripL f.data ≠ [])
    (hl : pyStripL l.data = []) :
    validate_payload f l = .error ("LLM output missing letter text.") := by
  simp only [validate_payload]
  rw [if_neg hf, if_pos hl]

theorem validate_sep_error (f l : String) (hf : pyStripL f.data ≠ [])
    (hl : pyStripL l.data ≠ [])
    (hsep : (pyStripL f.data).any (fun c => c = '/' || c = '\\') = true) :
    validate_payload f l = .error ("LLM filename must not include path separators.") := by
  simp only [validate_payload]
  rw [if_neg hf, if_neg hl, if_pos hsep]

theorem parse_decode_error (s : String)
    (h : json_loads (unwrap_code_fence s) = none) :
    parse_llm_payload s = .error ("LLM output was not valid JSON.") := by
  simp only [parse_llm_payload]
  rw [h]

theorem parse_obj_eq (s : String) (fields : List (String × JValue))
    (h : json_loads (unwrap_code_fence s) = some (JValue.jobj fields)) :
    parse_llm_payload s = validate_payload
      (pyStr ((jLookup fields ("filename")).getD (.jstr (""))))
      (pyStr ((jLookup fields ("letter")).getD (.jstr ("")))) := by
  simp only [parse_llm_payload]
  rw [h]

theorem parse_nonobject_error (s : String) (v : JValue)
    (h : json_loads (unwrap_code_fence s) = some v) (hv : isJObj v = false) :
    parse_llm_payload s = .error ("LLM output JSON must be an object.") := by
  simp only [parse_llm_payload]
  rw [h]
  cases v <;> first
    | rfl
    | exact absurd hv (by simp [isJObj])

/-- Every filename in `filenameRejected` makes the validator raise. -/
theorem validate_error_of_rejected (f l : String) (hbad : filenameRejected f) :
    ∃ e, validate_payload f l = .error e := by
  by_cases h1 : pyStripL f.data = []
  · exact ⟨_, validate_empty_filename f l h1⟩
  by_cases h2 : pyStripL l.data = []
  · exact ⟨_, validate_letter_error f l h1 h2⟩
  by_cases h3 : (pyStripL f.data).any (fun c => c = '/' || c = '\\') = true
  · exact ⟨_, validate_sep_error f l h1 h2 h3⟩
  simp only [validate_payload]
  rw [if_neg h1, if_neg h2, if_neg h3]
  by_cases h4 : clean_filename_steps (pyStripL f.data) = []
  · rw [if_pos h4]
    exact ⟨_, rfl⟩
  rw [if_neg h4]
  by_cases h5 : (!((clean_filename_steps (pyStripL f.data)).all (fun c => c.toNat ≤ 127))) = true
  · rw [if_pos h5]
    exact ⟨_, rfl⟩
  rw [if_neg h5]
  by_cases h6 : (clean_filename_steps (pyStripL f.data)).any (fun c => c = ' ') = true
  · rw [if_pos h6]
    exact ⟨_, rfl⟩
  rw [if_neg h6]
  by_cases h7 : (!((clean_filename_steps (pyStripL f.data)).all isWordChar)) = true
  · rw [if_pos h7]
    exact ⟨_, rfl⟩
  exfalso
  simp only [filenameRejected, cleaned_filename, data_mk, string_eq_empty_iff] at hbad
  rcases hbad with hbad | hbad | hbad | hbad | hbad
  · exact h3 hbad
  · exact h4 hbad
  · rcases List.any_eq_true.mp hbad with ⟨c, hc, hcc⟩
    have hall : (clean_filename_steps (pyStripL f.data)).all (fun c => c.toNat ≤ 127) = true := by
      revert h5
      cases (clean_filename_steps (pyStripL f.data)).all (fun c => c.toNat ≤ 127) <;> simp
    have hmem := List.all_eq_true.mp hall c hc
    simp only [Bool.not_eq_true', decide_eq_false_iff_not] at hcc
    simp only [decide_eq_true_eq] at hmem
    exact hcc hmem
  · exact h6 hbad
  · rcases List.any_eq_true.mp hbad with ⟨c, hc, hcc⟩
    have hall : (clean_filename_steps (pyStripL f.data)).all isWordChar = true := by
      revert h7
      cases (clean_filename_steps (pyStripL f.data)).all isWordChar <;> simp
    have hmem := List.all_eq_true.mp hall c hc
    simp only [Bool.not_eq_true'] at hcc
    simp [hmem] at hcc

end CoverLetters

namespace CoverLetters

/-! ### Claims C2, C3, C4, C10 (the validator cluster) -/

/-- C2 (amended): for every payload object whose `filename` string, after
trimming, contains a path separator, or whose cleaned filename (after
trimming, extension stripping and re-trimming) is empty or contains a
non-ASCII character, a space, or a character outside `[A-Za-z0-9_]`,
`parse_llm_payload` raises a `ValueError`, and — because validation
happens before any write in `main` — no output file is produced. -/
theorem C2_validator_rejects (raw f l : String) (fields : List (String × JValue))
    (text_out : Option String) (skip_pdf : Bool) (pdf_out : Option String)
    (hdec : json_loads (unwrap_code_fence raw) = some (JValue.jobj fields))
    (hfn : jLookup fields ("filename") = some (JValue.jstr f))
    (hlt : jLookup fields ("letter") = some (JValue.jstr l))
    (hbad : filenameRejected f) :
    (∃ e, parse_llm_payload raw = .error e)
    ∧ main_file_writes raw text_out skip_pdf pdf_out = [] := by
  have hparse : parse_llm_payload raw = validate_payload f l := by
    rw [parse_obj_eq raw fields hdec, hfn, hlt]
    rfl
  rcases validate_error_of_rejected f l hbad with ⟨e, he⟩
  refine ⟨⟨e, by rw [hparse, he]⟩, ?_⟩
  simp only [main_file_writes, main_events, hparse, he]
  rfl

/-- Witness for C2: the filename `"bad name"` (space in the cleaned
name) is rejected end-to-end and `main` writes no files. -/
theorem C2_witness :
    (∃ e, parse_llm_payload ("\x7b\"filename\": \"bad name\", \"letter\": \"Hi\"\x7d") = .error e)
    ∧ main_file_writes ("\x7b\"filename\": \"bad name\", \"letter\": \"Hi\"\x7d")
        (some ("/tmp/out.txt")) false none = [] :=
  C2_validator_rejects ("\x7b\"filename\": \"bad name\", \"letter\": \"Hi\"\x7d")
    ("bad name") ("Hi")
    ([("filename", JValue.jstr ("bad name")), ("letter", JValue.jstr ("Hi"))])
    (some ("/tmp/out.txt")) false none rfl rfl rfl
    (Or.inr (Or.inr (Or.inr (Or.inl (by decide)))))

/-- Counterexample to C2 as stated: the raw filename `" abc"` contains a
space, yet `parse_llm_payload` accepts it (the leading space is removed
by the initial `strip()`), returning the cleaned name `"abc"`. -/
theorem C2_counterexample :
    parse_llm_payload ("\x7b\"filename\": \" abc\", \"letter\": \"Hello\"\x7d")
      = .ok ("abc", "Hello") := rfl

/-- C3 (amended): the validator checks the empty filename first, then the
empty letter, and only then the path separators (and the remaining
filename checks); in particular a payload whose filename contains a path
separator and whose letter trims to empty raises the missing-letter
error, not the path-separator error. -/
theorem C3_check_order :
    (∀ f l : String, pyStripL f.data ≠ [] → pyStripL l.data = [] →
      validate_payload f l = .error ("LLM output missing letter text.")) ∧
    (∀ f l : String, pyStripL f.data ≠ [] → pyStripL l.data ≠ [] →
      (pyStripL f.data).any (fun c => c = '/' || c = '\\') = true →
      validate_payload f l = .error ("LLM filename must not include path separators.")) :=
  ⟨fun f l hf hl => validate_letter_error f l hf hl,
   fun f l hf hl hsep => validate_sep_error f l hf hl hsep⟩

/-- Witness for C3: both orderings at concrete payloads. -/
theorem C3_witness :
    validate_payload ("a/b") (" ") = .error ("LLM output missing letter text.") ∧
    validate_payload ("x/y") ("ok") = .error ("LLM filename must not include path separators.") :=
  ⟨C3_check_order.1 ("a/b") (" ") (by decide) (by decide),
   C3_check_order.2 ("x/y") ("ok") (by decide) (by decide) (by decide)⟩

/-- Counterexample to C3 as stated: for filename `"a/b"` and a
whitespace-only letter the error raised is the missing-letter error
(the spec places the empty-letter check last, the code second). -/
theorem C3_counterexample :
    validate_payload ("a/b") (" ") = .error ("LLM output missing letter text.") ∧
    ("LLM output missing letter text.") ≠ ("LLM filename must not include path separators.") := by
  exact ⟨rfl, by decide⟩

/-- C4 (amended): in unstructured mode any JSON parse failure raises a
fatal `ValueError`; a missing `"filename"` or `"letter"` key (defaulted
to the empty string) raises a `ValueError`; but keys other than the two
expected ones are ignored, not rejected. -/
theorem C4_json_and_keys :
    (∀ s : String, json_loads (unwrap_code_fence s) = none →
      parse_llm_payload s = .error ("LLM output was not valid JSON.")) ∧
    (∀ (s : String) (fields : List (String × JValue)),
      json_loads (unwrap_code_fence s) = some (JValue.jobj fields) →
      jLookup fields ("filename") = none →
      parse_llm_payload s = .error ("LLM output missing filename.")) ∧
    (∀ (s : String) (fields : List (String × JValue)) (f : String),
      json_loads (unwrap_code_fence s) = some (JValue.jobj fields) →
      jLookup fields ("filename") = some (JValue.jstr f) →
      pyStripL f.data ≠ [] →
      jLookup fields ("letter") = none →
      parse_llm_payload s = .error ("LLM output missing letter text.")) := by
  refine ⟨fun s h => parse_decode_error s h, fun s fields h hfn => ?_, fun s fields f h hfn hf hlt => ?_⟩
  · rw [parse_obj_eq s fields h, hfn]
    exact validate_empty_filename _ _ rfl
  · rw [parse_obj_eq s fields h, hfn, hlt]
    exact validate_letter_error f ("") hf rfl

/-- Witness for C4: a non-JSON response, a payload missing `"filename"`,
and a payload missing `"letter"`. -/
theorem C4_witness :
    parse_llm_payload ("not json") = .error ("LLM output was not valid JSON.") ∧
    parse_llm_payload ("\x7b\"letter\": \"B\"\x7d") = .error ("LLM output missing filename.") ∧
    parse_llm_payload ("\x7b\"filename\": \"A\"\x7d") = .error ("LLM output missing letter text.") :=
  ⟨C4_json_and_keys.1 ("not json") rfl,
   C4_json_and_keys.2.1 ("\x7b\"letter\": \"B\"\x7d") ([("letter", JValue.jstr ("B"))]) rfl rfl,
   C4_json_and_keys.2.2 ("\x7b\"filename\": \"A\"\x7d") ([("filename", JValue.jstr ("A"))])
     ("A") rfl rfl (by decide) rfl⟩

/-- Counterexample to C4 as stated: an object carrying the extra key
`"extra"` is not rejected — the parser succeeds. -/
theorem C4_counterexample :
    parse_llm_payload ("\x7b\"filename\": \"A\", \"letter\": \"B\", \"extra\": \"C\"\x7d")
      = .ok ("A", "B") := rfl

/-- C10: a JSON-decodable response whose top-level value is not an object
raises the `ValueError` "LLM output JSON must be an object.", and the
parser is total: on every input it returns a pair or raises a
`ValueError`. -/
theorem C10_nonobject_total :
    (∀ (s : String) (v : JValue), json_loads (unwrap_code_fence s) = some v →
      isJObj v = false →
      parse_llm_payload s = .error ("LLM output JSON must be an object.")) ∧
    (∀ s : String, (∃ p, parse_llm_payload s = .ok p) ∨ ∃ e, parse_llm_payload s = .error e) := by
  refine ⟨fun s v h hv => parse_nonobject_error s v h hv, fun s => ?_⟩
  cases hp : parse_llm_payload s with
  | ok p => exact Or.inl ⟨p, rfl⟩
  | error e => exact Or.inr ⟨e, rfl⟩

/-- Witness for C10: a top-level JSON array is rejected with the
object-required error. -/
theorem C10_witness :
    parse_llm_payload ("[1, 2]") = .error ("LLM output JSON must be an object.") :=
  C10_nonobject_total.1 ("[1, 2]") (JValue.jarr [JValue.jint 1, JValue.jint 2]) rfl rfl

end CoverLetters

namespace CoverLetters

/-! ### Claims C7 and C9 -/

/-- C7 (amended): `load_job_description` returns the trimmed file content
when the path exists and reads as UTF-8 text, and falls back to the
trimmed input value on any OS-level access failure (not found,
permission, I/O error, directory) — but a file whose bytes are not
valid UTF-8 raises `UnicodeDecodeError` (a `ValueError` that
`except OSError` does not catch). -/
theorem C7_literal_fallback :
    ∀ (ex : ExistsOutcome) (rd : ReadOutcome) (value : String),
      (ex = ExistsOutcome.isTrue ∧ ∃ c, rd = ReadOutcome.success c ∧
        load_job_description ex rd value = .ok (pyStrip c)) ∨
      load_job_description ex rd value = .ok (pyStrip value) ∨
      (ex = ExistsOutcome.isTrue ∧ rd = ReadOutcome.raisesUnicodeDecodeError ∧
        load_job_description ex rd value = .error ("UnicodeDecodeError")) := by
  intro ex rd value
  cases ex with
  | raisesOSError => exact Or.inr (Or.inl rfl)
  | isFalse => exact Or.inr (Or.inl rfl)
  | isTrue =>
    cases rd with
    | success c => exact Or.inl ⟨rfl, c, rfl, rfl⟩
    | raisesOSError => exact Or.inr (Or.inl rfl)
    | raisesUnicodeDecodeError => exact Or.inr (Or.inr ⟨rfl, rfl, rfl⟩)

/-- Counterexample to C7 as stated ("it never raises"): an existing file
whose bytes are not valid UTF-8 makes `load_job_description` raise. -/
theorem C7_counterexample :
    load_job_description ExistsOutcome.isTrue ReadOutcome.raisesUnicodeDecodeError
      ("my job description") = .error ("UnicodeDecodeError") := rfl

theorem layout_run (letter p : String) :
    layoutOf (write_pdf_run letter p) = write_pdf_layout letter := by
  unfold write_pdf_run layoutOf
  simp only [List.filterMap_cons, List.filterMap_append, List.filterMap_map, Function.comp]
  rw [show ((fun e => match e with
      | OutEvent.pdf x => some x
      | _ => none) ∘ OutEvent.pdf) = some from rfl]
  simp [List.filterMap_some]

/-- C9: the paragraph split, the wrapped lines, every page-break decision
and hence the page count are functions of the letter text alone — the
canvas trace is identical across runs and does not depend on the output
path. -/
theorem C9_idempotent_layout :
    ∀ (letter p q : String),
      layoutOf (write_pdf_run letter p) = layoutOf (write_pdf_run letter q) ∧
      pageCount (layoutOf (write_pdf_run letter p))
        = pageCount (layoutOf (write_pdf_run letter q)) := by
  intro letter p q
  rw [layout_run, layout_run]
  exact ⟨rfl, rfl⟩

end CoverLetters

namespace CoverLetters

/-! ### Claim C6: page-break behaviour of `write_pdf` -/

theorem drawLine_invariant (line : List Char) (st : Int × List PdfEvent)
    (hy : y_margin - line_height ≤ st.1)
    (hev : ∀ e ∈ st.2, drawYge (y_margin - line_height) e) :
    y_margin ≤ (drawLine st line).1 ∧
    ∀ e ∈ (drawLine st line).2, drawYge (y_margin - line_height) e := by
  have h14 : line_height = 14 := rfl
  have h72 : y_margin = 72 := rfl
  have h720 : page_top = 720 := rfl
  unfold drawLine
  by_cases h : st.1 - line_height < y_margin
  · simp only [if_pos h]
    refine ⟨by omega, ?_⟩
    intro e he
    have hsplit : e ∈ st.2 ∨ e = PdfEvent.draw st.1 (String.mk line) ∨
        e = PdfEvent.newPage ∨ e = PdfEvent.setFont := by
      simp only [List.mem_append, List.mem_cons, List.not_mem_nil, or_false] at he
      tauto
    rcases hsplit with he | rfl | rfl | rfl
    · exact hev e he
    · exact hy
    · trivial
    · trivial
  · simp only [if_neg h]
    refine ⟨by omega, ?_⟩
    intro e he
    have hsplit : e ∈ st.2 ∨ e = PdfEvent.draw st.1 (String.mk line) := by
      simp only [List.mem_append, List.mem_cons, List.not_mem_nil, or_false] at he
      tauto
    rcases hsplit with he | rfl
    · exact hev e he
    · exact hy

theorem foldl_drawLine_invariant (lines : List (List Char)) (st : Int × List PdfEvent)
    (hy : y_margin - line_height ≤ st.1)
    (hev : ∀ e ∈ st.2, drawYge (y_margin - line_height) e) :
    (∀ e ∈ (lines.foldl drawLine st).2, drawYge (y_margin - line_height) e) ∧
    (lines ≠ [] → y_margin ≤ (lines.foldl drawLine st).1) ∧
    (lines = [] → lines.foldl drawLine st = st) := by
  induction lines generalizing st with
  | nil => exact ⟨hev, fun h => absurd rfl h, fun _ => rfl⟩
  | cons a t ih =>
    have h1 := drawLine_invariant a st hy hev
    have hstep : y_margin - line_height ≤ (drawLine st a).1 := by
      have h14 : line_height = 14 := rfl
      have h72 : y_margin = 72 := rfl
      omega
    have h2 := ih (drawLine st a) hstep h1.2
    refine ⟨h2.1, fun _ => ?_, fun h => by simp at h⟩
    cases t with
    | nil =>
      rw [List.foldl_cons, List.foldl_nil]
      exact h1.1
    | cons b u =>
      rw [List.foldl_cons]
      exact h2.2.1 (by simp)

theorem paraStep_invariant (p : List Char) (st : Int × List PdfEvent)
    (hwrap : pyWrap 95 p ≠ [])
    (hy : y_margin - line_height ≤ st.1)
    (hev : ∀ e ∈ st.2, drawYge (y_margin - line_height) e) :
    y_margin - line_height ≤ (paraStep st p).1 ∧
    ∀ e ∈ (paraStep st p).2, drawYge (y_margin - line_height) e := by
  unfold paraStep
  dsimp only
  have h := foldl_drawLine_invariant (pyWrap 95 p) st hy hev
  have h2 := h.2.1 hwrap
  exact ⟨by omega, h.1⟩

theorem foldl_paraStep_invariant (ps : List (List Char)) (st : Int × List PdfEvent)
    (hwrap : ∀ p ∈ ps, pyWrap 95 p ≠ [])
    (hy : y_margin - line_height ≤ st.1)
    (hev : ∀ e ∈ st.2, drawYge (y_margin - line_height) e) :
    ∀ e ∈ (ps.foldl paraStep st).2, drawYge (y_margin - line_height) e := by
  induction ps generalizing st with
  | nil => exact hev
  | cons a t ih =>
    have h := paraStep_invariant a st (hwrap a (by simp)) hy hev
    exact ih (paraStep st a) (fun p hp => hwrap p (by simp [hp])) h.1 h.2

/-- C6 (amended): `write_pdf` checks for an exhausted page only inside a
paragraph's line loop, so every line after the first of a paragraph is
drawn at or above the bottom margin, but the inter-paragraph gap is
applied without a page-break check and a paragraph's first line can
land below the margin (arbitrarily far below after runs of empty
paragraphs).  For letters in which every paragraph wraps to at least
one line, every line is drawn at height at least
`y_margin - line_height`. -/
theorem C6_page_break_bound :
    ∀ letter : String,
      (∀ p ∈ splitParagraphs letter, pyWrap 95 p ≠ []) →
      ∀ e ∈ write_pdf_layout letter, drawYge (y_margin - line_height) e := by
  intro letter hwrap
  unfold write_pdf_layout
  exact foldl_paraStep_invariant (splitParagraphs letter) (page_top, [PdfEvent.setFont])
    hwrap (by norm_num [page_top, y_margin, line_height])
    (by intro e he; simp at he; subst he; trivial)

/-- Witness for C6: a two-paragraph letter satisfies the hypothesis and
all its lines respect the bound. -/
theorem C6_witness :
    (∀ p ∈ splitParagraphs ("Hello\n\nWorld"), pyWrap 95 p ≠ []) ∧
    ∀ e ∈ write_pdf_layout ("Hello\n\nWorld"), drawYge (y_margin - line_height) e :=
  ⟨by decide, C6_page_break_bound ("Hello\n\nWorld") (by decide)⟩

/-- Counterexample to C6 as stated: after 46 empty paragraphs the
inter-paragraph gap has pushed the cursor to height 48 with no page
break, and the final paragraph's line is drawn below the 72-point
bottom margin. -/
theorem C6_counterexample :
    hasDrawBelowMargin
      (write_pdf_layout ("a" ++ String.join (List.replicate 47 ("\n\n")) ++ "b"))
      = true := by decide

end CoverLetters

namespace CoverLetters

/-! ### Claim C1: valid filenames pass through unchanged -/

theorem endsWith_append_short {A B t : List Char} (hlen : t.length ≤ B.length)
    (hnot : ¬ t <:+ B) : pyEndsWith (A ++ B) t = false := by
  cases hE : pyEndsWith (A ++ B) t
  · rfl
  · exfalso
    have hsuf : t <:+ A ++ B := by
      rw [← List.isSuffixOf_iff_suffix]
      exact hE
    exact hnot (isSuffix_of_append hsuf hlen)

theorem validate_ok (g sfx l : String)
    (hsfx : sfx = "" ∨ sfx.data.map pyLowerChar = (".pdf").data ∨
      sfx.data.map pyLowerChar = (".txt").data)
    (hg1 : g ≠ "") (hg2 : ∀ c ∈ g.data, isWordChar c = true)
    (hl : pyStripL l.data ≠ []) :
    validate_payload (g ++ sfx) l = .ok (g, pyStrip l) := by
  have hdata : (g ++ sfx).data = g.data ++ sfx.data := String.data_append g sfx
  have hsfxchar : ∀ c ∈ sfx.data, pyIsSpace c = false ∧ c ≠ '/' ∧ c ≠ '\\' := by
    rcases hsfx with rfl | hm | hm
    · intro c hc
      rw [show ("" : String).data = [] from rfl] at hc
      cases hc
    · exact sfx_char_facts hm (by decide)
    · exact sfx_char_facts hm (by decide)
  have hgchar : ∀ c ∈ g.data, pyIsSpace c = false := fun c hc =>
    wordChar_not_space (hg2 c hc)
  have hstrip : pyStripL (g ++ sfx).data = g.data ++ sfx.data := by
    rw [hdata]
    refine pyStripL_eq_self ?_
    intro c hc
    rcases List.mem_append.mp hc with h | h
    · exact hgchar c h
    · exact (hsfxchar c h).1
  have hgdata : g.data ≠ [] := fun h => hg1 ((string_eq_empty_iff g).mpr h)
  have hne : g.data ++ sfx.data ≠ [] := fun h => hgdata (List.append_eq_nil.mp h).1
  have hsep : (g.data ++ sfx.data).any (fun c => c = '/' || c = '\\') = false := by
    rw [List.any_eq_false]
    intro c hc
    rcases List.mem_append.mp hc with h | h
    · simp [wordChar_ne (hg2 c h) (d := '/') (Or.inl (by decide)),
        wordChar_ne (hg2 c h) (d := '\\') (Or.inr (Or.inl (by decide)))]
    · rcases hsfxchar c h with ⟨_, h2, h3⟩
      simp [h2, h3]
  have hstrip_g : pyStripL g.data = g.data := pyStripL_eq_self hgchar
  have e_pdf_g : pyEndsWith (g.data.map pyLowerChar) (['.', 'p', 'd', 'f']) = false :=
    endsWith_false_of_no_dot (by decide) (no_dot_in_lower hg2)
  have e_txt_g : pyEndsWith (g.data.map pyLowerChar) (['.', 't', 'x', 't']) = false :=
    endsWith_false_of_no_dot (by decide) (no_dot_in_lower hg2)
  have hclean : clean_filename_steps (g.data ++ sfx.data) = g.data := by
    rcases hsfx with rfl | hm | hm
    · rw [show ("" : String).data = [] from rfl, List.append_nil]
      simp [clean_filename_steps, e_pdf_g, e_txt_g, hstrip_g]
    · have hlen : sfx.data.length = 4 := by
        have := congrArg List.length hm
        simpa using this
      have hslen : sfx.length = 4 := hlen
      have hg_len : g.length = g.data.length := rfl
      have e1c : pyEndsWith (List.map pyLowerChar g.data ++ List.map pyLowerChar sfx.data)
          (['.', 'p', 'd', 'f']) = true := by
        rw [hm]
        exact List.isSuffixOf_iff_suffix.mpr ⟨_, rfl⟩
      have htake2 : List.take (g.length + sfx.length - 4) (g.data ++ sfx.data) = g.data := by
        rw [hslen, hg_len, show g.data.length + 4 - 4 = g.data.length from by omega]
        exact List.take_left g.data sfx.data
      simp [clean_filename_steps, e1c, htake2, e_txt_g, hstrip_g]
    · have hlen : sfx.data.length = 4 := by
        have := congrArg List.length hm
        simpa using this
      have hslen : sfx.length = 4 := hlen
      have hg_len : g.length = g.data.length := rfl
      have e0c : pyEndsWith (List.map pyLowerChar g.data ++ List.map pyLowerChar sfx.data)
          (['.', 'p', 'd', 'f']) = false := by
        rw [hm]
        exact endsWith_append_short (by decide) (by decide)
      have e1c : pyEndsWith (List.map pyLowerChar g.data ++ List.map pyLowerChar sfx.data)
          (['.', 't', 'x', 't']) = true := by
        rw [hm]
        exact List.isSuffixOf_iff_suffix.mpr ⟨_, rfl⟩
      have htake2 : List.take (g.length + sfx.length - 4) (g.data ++ sfx.data) = g.data := by
        rw [hslen, hg_len, show g.data.length + 4 - 4 = g.data.length from by omega]
        exact List.take_left g.data sfx.data
      simp [clean_filename_steps, e0c, e1c, htake2, e_txt_g, hstrip_g]
  have hall_ascii : g.data.all (fun c => c.toNat ≤ 127) = true := by
    rw [List.all_eq_true]
    intro c hc
    have := wordChar_toNat (hg2 c hc)
    simp only [decide_eq_true_eq]
    omega
  have hnospace : g.data.any (fun c => c = ' ') = false := by
    rw [List.any_eq_false]
    intro c hc
    simp [wordChar_ne (hg2 c hc) (d := ' ') (Or.inr (Or.inr (Or.inl (by decide))))]
  have hword : g.data.all isWordChar = true := by
    rw [List.all_eq_true]
    exact hg2
  simp only [validate_payload]
  rw [hstrip, if_neg hne, if_neg hl, if_neg (by simp [hsep]), hclean,
    if_neg hgdata, if_neg (by simp [hall_ascii]), if_neg (by simp [hnospace]),
    if_neg (by simp [hword]), stringMk_data]
  rfl

/-- C1: for every payload whose `filename` value is a clean name (only
ASCII letters, digits and underscores) followed by an optional trailing
`.pdf`/`.txt` suffix in any letter case, and whose `letter` value is
non-empty after trimming, `parse_llm_payload` succeeds and returns
exactly the stripped filename and the trimmed letter. -/
theorem C1_valid_filename (raw g sfx l : String) (fields : List (String × JValue))
    (hdec : json_loads (unwrap_code_fence raw) = some (JValue.jobj fields))
    (hfn : jLookup fields ("filename") = some (JValue.jstr (g ++ sfx)))
    (hlt : jLookup fields ("letter") = some (JValue.jstr l))
    (hsfx : sfx = "" ∨ sfx.data.map pyLowerChar = (".pdf").data ∨
      sfx.data.map pyLowerChar = (".txt").data)
    (hg1 : g ≠ "") (hg2 : ∀ c ∈ g.data, isWordChar c = true)
    (hl : pyStripL l.data ≠ []) :
    parse_llm_payload raw = .ok (g, pyStrip l) := by
  have hparse : parse_llm_payload raw = validate_payload (g ++ sfx) l := by
    rw [parse_obj_eq raw fields hdec, hfn, hlt]
    rfl
  rw [hparse]
  exact validate_ok g sfx l hsfx hg1 hg2 hl

/-- Witness for C1: the payload with filename `"CoverLetter.pdf"` yields
the cleaned filename `"CoverLetter"`. -/
theorem C1_witness :
    parse_llm_payload ("\x7b\"filename\": \"CoverLetter.pdf\", \"letter\": \"Dear team, thanks.\"\x7d")
      = .ok ("CoverLetter", pyStrip ("Dear team, thanks.")) :=
  C1_valid_filename
    ("\x7b\"filename\": \"CoverLetter.pdf\", \"letter\": \"Dear team, thanks.\"\x7d")
    ("CoverLetter") (".pdf") ("Dear team, thanks.")
    ([("filename", JValue.jstr ("CoverLetter.pdf")),
      ("letter", JValue.jstr ("Dear team, thanks."))])
    rfl rfl rfl (Or.inr (Or.inl (by decide))) (by decide) (by decide) (by decide)

end CoverLetters

namespace CoverLetters

/-! ### Claim C5: code-fence unwrapping -/

theorem dropWhile_cons_false (p : Char → Bool) (a : Char) (l : List Char)
    (h : p a = false) : List.dropWhile p (a :: l) = a :: l := by
  simp [List.dropWhile_cons, h]

theorem pyStripL_sandwich (a b : Char) (mid : List Char)
    (ha : pyIsSpace a = false) (hb : pyIsSpace b = false) :
    pyStripL (a :: (mid ++ [b])) = a :: (mid ++ [b]) := by
  unfold pyStripL
  rw [dropWhile_cons_false _ _ _ ha]
  rw [show (a :: (mid ++ [b])).reverse = b :: (mid.reverse ++ [a]) by simp]
  rw [dropWhile_cons_false _ _ _ hb]
  simp

theorem pySplitlinesAux_cons (c : Char) (rest acc : List Char) (hc : c ≠ '\r') :
    pySplitlinesAux (c :: rest) acc =
      if isLineBoundary c then acc.reverse :: pySplitlinesAux rest []
      else pySplitlinesAux rest (c :: acc) := by
  cases rest with
  | nil =>
    rw [pySplitlinesAux.eq_def]
    simp [hc]
  | cons b r =>
    rw [pySplitlinesAux.eq_def]
    rcases eq_or_ne b '\n' with rfl | hb
    · simp [hc]
    · simp [hc, hb]

theorem splitNl_cons_nl (r : List Char) : splitNl ('\n' :: r) = [] :: splitNl r := by
  simp [splitNl]

theorem splitNl_cons_ne (c : Char) (r : List Char) (hc : c ≠ '\n') :
    splitNl (c :: r) = (splitNl r).modifyHead (fun h => c :: h) := by
  simp [splitNl, hc]

theorem splitNl_ne_nil (l : List Char) : splitNl l ≠ [] := by
  induction l with
  | nil => simp [splitNl]
  | cons c r ih =>
    rcases eq_or_ne c '\n' with rfl | hc
    · rw [splitNl_cons_nl]
      simp
    · rw [splitNl_cons_ne c r hc]
      rcases h : splitNl r with _ | ⟨h0, t⟩
      · exact absurd h ih
      · simp [List.modifyHead]

theorem splitNl_no_nl (l : List Char) (h : ('\n' : Char) ∉ l) : splitNl l = [l] := by
  induction l with
  | nil => rfl
  | cons c r ih =>
    have hc : c ≠ '\n' := fun e => h (by rw [e]; exact List.mem_cons_self _ _)
    have hr : ('\n' : Char) ∉ r := fun e => h (List.mem_cons_of_mem _ e)
    rw [splitNl_cons_ne c r hc, ih hr]
    rfl

theorem splitNl_append_left (A rest : List Char) (hA : ('\n' : Char) ∉ A) :
    splitNl (A ++ '\n' :: rest) = A :: splitNl rest := by
  induction A with
  | nil =>
    rw [List.nil_append, splitNl_cons_nl]
  | cons a A' ih =>
    have ha : a ≠ '\n' := fun e => hA (by rw [e]; exact List.mem_cons_self _ _)
    have hA' : ('\n' : Char) ∉ A' := fun e => hA (List.mem_cons_of_mem _ e)
    rw [List.cons_append, splitNl_cons_ne a _ ha, ih hA']
    rfl

theorem splitNl_append_right (xs B : List Char) (hB : ('\n' : Char) ∉ B) :
    splitNl (xs ++ '\n' :: B) = splitNl xs ++ [B] := by
  induction xs with
  | nil =>
    rw [List.nil_append, splitNl_cons_nl, splitNl_no_nl B hB]
    rfl
  | cons c xs' ih =>
    rcases eq_or_ne c '\n' with rfl | hc
    · rw [List.cons_append, splitNl_cons_nl, ih, splitNl_cons_nl]
      rfl
    · rw [List.cons_append, splitNl_cons_ne c _ hc, splitNl_cons_ne c _ hc, ih]
      rcases hs : splitNl xs' with _ | ⟨h0, t⟩
      · exact absurd hs (splitNl_ne_nil xs')
      · simp [List.modifyHead]

theorem joinNl_splitNl (l : List Char) : joinNlL (splitNl l) = l := by
  induction l with
  | nil => rfl
  | cons c r ih =>
    rcases eq_or_ne c '\n' with rfl | hc
    · rw [splitNl_cons_nl]
      rcases h : splitNl r with _ | ⟨h0, t⟩
      · exact absurd h (splitNl_ne_nil r)
      · rw [h] at ih
        simpa [joinNlL] using ih
    · rw [splitNl_cons_ne c r hc]
      rcases h : splitNl r with _ | ⟨h0, t⟩
      · exact absurd h (splitNl_ne_nil r)
      · rw [h] at ih
        cases t with
        | nil => simpa [List.modifyHead, joinNlL] using ih
        | cons t0 ts => simpa [List.modifyHead, joinNlL] using ih

theorem dropFinalEmpty_cons (x : List Char) (l : List (List Char)) (h : l ≠ []) :
    dropFinalEmpty (x :: l) = x :: dropFinalEmpty l := by
  cases l with
  | nil => exact absurd rfl h
  | cons y t => rfl

theorem dropFinalEmpty_concat (l : List (List Char)) (x : List Char) (hx : x ≠ []) :
    dropFinalEmpty (l ++ [x]) = l ++ [x] := by
  induction l with
  | nil =>
    simp only [List.nil_append, dropFinalEmpty]
    rw [if_neg (by simpa using hx)]
  | cons a l' ih =>
    rw [List.cons_append, dropFinalEmpty_cons _ _ (by simp), ih]

theorem pySplitlinesAux_bridge (cs : List Char) (acc : List Char)
    (h : ∀ c ∈ cs, isLineBoundary c = true → c = '\n') :
    pySplitlinesAux cs acc =
      dropFinalEmpty ((splitNl cs).modifyHead (fun x => acc.reverse ++ x)) := by
  induction cs generalizing acc with
  | nil =>
    simp only [pySplitlinesAux, splitNl, List.modifyHead, dropFinalEmpty,
      List.append_nil]
    cases acc with
    | nil => simp
    | cons a t => simp
  | cons c rest ih =>
    have hcr : c ≠ '\r' := by
      intro e
      have h2 := h c (List.mem_cons_self _ _) (by rw [e]; decide)
      rw [e] at h2
      exact absurd h2 (by decide)
    rw [pySplitlinesAux_cons c rest acc hcr]
    by_cases hb : isLineBoundary c = true
    · have hcn : c = '\n' := h c (List.mem_cons_self _ _) hb
      subst hcn
      rw [if_pos hb]
      rw [ih [] (fun d hd => h d (List.mem_cons_of_mem _ hd))]
      rw [splitNl_cons_nl]
      rcases hs : splitNl rest with _ | ⟨h0, t⟩
      · exact absurd hs (splitNl_ne_nil rest)
      · simp only [List.modifyHead, List.reverse_nil, List.nil_append,
          List.append_nil]
        exact (dropFinalEmpty_cons _ _ (by simp)).symm
    · have hcn : c ≠ '\n' := by
        intro e
        rw [e] at hb
        exact hb (by decide)
      rw [if_neg hb]
      rw [ih (c :: acc) (fun d hd => h d (List.mem_cons_of_mem _ hd))]
      rw [splitNl_cons_ne c rest hcn]
      rcases hs : splitNl rest with _ | ⟨h0, t⟩
      · exact absurd hs (splitNl_ne_nil rest)
      · simp [List.modifyHead]

theorem pySplitlinesL_only_nl (cs : List Char)
    (h : ∀ c ∈ cs, isLineBoundary c = true → c = '\n') :
    pySplitlinesL cs = dropFinalEmpty (splitNl cs) := by
  unfold pySplitlinesL
  rw [pySplitlinesAux_bridge cs [] h]
  rcases hs : splitNl cs with _ | ⟨h0, t⟩
  · exact absurd hs (splitNl_ne_nil cs)
  · simp [List.modifyHead]

theorem unwrap_not_fenced (s : String)
    (hns : pyStartsWith (pyStripL s.data) fenceMarker = false) :
    unwrap_code_fence s = String.mk (pyStripL s.data) := by
  unfold unwrap_code_fence
  rw [if_neg (by simp [hns])]

end CoverLetters

namespace CoverLetters

theorem unwrap_fence_wrapped (s : String)
    (honly : ∀ c ∈ s.data, isLineBoundary c = true → c = '\n') :
    unwrap_code_fence (("```json\n") ++ s ++ ("\n```")) = String.mk (pyStripL s.data) := by
  have hdata : (("```json\n") ++ s ++ ("\n```")).data
      = ("```json").data ++ '\n' :: (s.data ++ '\n' :: ("```").data) := by
    rw [String.data_append, String.data_append]
    simp [List.append_assoc]
  have hsand : (("```json\n") ++ s ++ ("\n```")).data
      = '`' :: ((("``json").data ++ '\n' :: (s.data ++ '\n' :: ("``").data)) ++ ['`']) := by
    rw [hdata]
    simp [List.append_assoc]
  have hstrip : pyStripL (("```json\n") ++ s ++ ("\n```")).data
      = (("```json\n") ++ s ++ ("\n```")).data := by
    rw [hsand]
    exact pyStripL_sandwich '`' '`' _ (by decide) (by decide)
  have hstart : pyStartsWith (pyStripL (("```json\n") ++ s ++ ("\n```")).data) fenceMarker = true := by
    rw [hstrip, hdata]
    rfl
  have honlyW : ∀ c ∈ (("```json\n") ++ s ++ ("\n```")).data,
      isLineBoundary c = true → c = '\n' := by
    rw [hdata]
    intro c hc hb
    simp only [List.mem_append, List.mem_cons] at hc
    rcases hc with hc | rfl | hc | rfl | hc
    · rcases hc with rfl | rfl | rfl | rfl | rfl | rfl | rfl | hc
      · exact absurd hb (by decide)
      · exact absurd hb (by decide)
      · exact absurd hb (by decide)
      · exact absurd hb (by decide)
      · exact absurd hb (by decide)
      · exact absurd hb (by decide)
      · exact absurd hb (by decide)
      · exact absurd hc (List.not_mem_nil c)
    · rfl
    · exact honly c hc hb
    · rfl
    · rcases hc with rfl | rfl | rfl | hc
      · exact absurd hb (by decide)
      · exact absurd hb (by decide)
      · exact absurd hb (by decide)
      · exact absurd hc (List.not_mem_nil c)
  have hlines : pySplitlinesL (pyStripL (("```json\n") ++ s ++ ("\n```")).data)
      = ("```json").data :: (splitNl s.data ++ [("```").data]) := by
    rw [hstrip]
    rw [pySplitlinesL_only_nl _ honlyW]
    rw [hdata]
    rw [splitNl_append_left _ _ (by decide)]
    rw [splitNl_append_right _ _ (by decide)]
    rw [show (("```json").data :: (splitNl s.data ++ [("```").data]))
        = (("```json").data :: splitNl s.data) ++ [("```").data] by simp]
    exact dropFinalEmpty_concat _ _ (by decide)
  simp only [unwrap_code_fence]
  rw [if_pos hstart, hlines]
  dsimp only
  rw [if_pos (show pyStartsWith (("```json").data) fenceMarker = true from by decide)]
  rw [List.getLastD_concat]
  rw [if_pos (show pyStartsWith (("```").data) fenceMarker = true from by decide)]
  rw [List.dropLast_concat, joinNl_splitNl]

end CoverLetters

namespace CoverLetters

/-- C5 (amended): for every response string whose trimmed form does not
begin with `` ``` `` and which contains no line-boundary character other
than `'\n'` (no `'\r'`, `'\x0b'`, `'\f'`, ...), wrapping it in
`` ```json ``/`` ``` `` fence lines leaves the parse result unchanged. -/
theorem C5_fence_round_trip (s : String)
    (hns : pyStartsWith (pyStripL s.data) fenceMarker = false)
    (honly : ∀ c ∈ s.data, isLineBoundary c = true → c = '\n') :
    parse_llm_payload (("```json\n") ++ s ++ ("\n```")) = parse_llm_payload s := by
  unfold parse_llm_payload
  rw [unwrap_fence_wrapped s honly, unwrap_not_fenced s hns]

/-- Witness for C5: a plain JSON payload parses identically with and
without the code fence. -/
theorem C5_witness :
    parse_llm_payload (("```json\n") ++ ("\x7b\"filename\": \"Acme_Dev\", \"letter\": \"Hi\"\x7d") ++ ("\n```"))
      = parse_llm_payload ("\x7b\"filename\": \"Acme_Dev\", \"letter\": \"Hi\"\x7d") :=
  C5_fence_round_trip ("\x7b\"filename\": \"Acme_Dev\", \"letter\": \"Hi\"\x7d")
    (by decide) (by decide)

/-- Counterexample to C5 as stated: a vertical-tab character (a Python
line boundary but not JSON whitespace) makes the fenced and unfenced
parses disagree — `splitlines`/`join` silently turns the `'\x0b'` into a
`'\n'`, so the fenced form parses while the raw form is invalid JSON. -/
theorem C5_counterexample :
    pyStartsWith (pyStripL ("\x7b\x0b\"filename\": \"A\", \"letter\": \"B\"\x7d").data) fenceMarker = false ∧
    parse_llm_payload (("```json\n") ++ ("\x7b\x0b\"filename\": \"A\", \"letter\": \"B\"\x7d") ++ ("\n```"))
      ≠ parse_llm_payload ("\x7b\x0b\"filename\": \"A\", \"letter\": \"B\"\x7d") := by
  refine ⟨by decide, ?_⟩
  intro h
  have h1 : parse_llm_payload (("```json\n") ++ ("\x7b\x0b\"filename\": \"A\", \"letter\": \"B\"\x7d") ++ ("\n```"))
      = .ok ("A", "B") := rfl
  have h2 : parse_llm_payload ("\x7b\x0b\"filename\": \"A\", \"letter\": \"B\"\x7d")
      = .error ("LLM output was not valid JSON.") := rfl
  rw [h1, h2] at h
  exact Except.noConfusion h

end CoverLetters

namespace CoverLetters

/-! ### Claim C8: lemmas on `splitNl`, joins, the margin, and stripping -/

theorem getLastD_irrel {α : Type} (l : List α) (h : l ≠ []) (d d' : α) :
    l.getLastD d = l.getLastD d' := by
  induction l generalizing d d' with
  | nil => exact absurd rfl h
  | cons a t ih =>
    cases t with
    | nil => rfl
    | cons b r => rfl

theorem getLastD_mem {α : Type} (l : List α) (h : l ≠ []) (d : α) :
    l.getLastD d ∈ l := by
  induction l generalizing d with
  | nil => exact absurd rfl h
  | cons a t ih =>
    cases t with
    | nil => simp
    | cons b r =>
      rw [List.getLastD_cons]
      exact List.mem_cons_of_mem a (ih (by simp) a)

theorem headD_mem {α : Type} (l : List α) (h : l ≠ []) (d : α) : l.headD d ∈ l := by
  cases l with
  | nil => exact absurd rfl h
  | cons a t => simp

theorem dropLast_getLastD_cons (L : List (List Char)) (h : L ≠ [])
    (t : List (List Char)) : L.dropLast ++ L.getLastD [] :: t = L ++ t := by
  induction L with
  | nil => exact absurd rfl h
  | cons a l ih =>
    cases l with
    | nil => rfl
    | cons b r =>
      rw [List.getLastD_cons, getLastD_irrel (b :: r) (by simp) a []]
      rw [show (a :: b :: r).dropLast = a :: (b :: r).dropLast from rfl]
      rw [List.cons_append, ih (by simp)]
      simp

theorem splitNl_glue (xs ys : List Char) :
    splitNl (xs ++ ys) =
      (splitNl xs).dropLast ++ (splitNl ys).modifyHead (fun h => lastLine xs ++ h) := by
  induction xs with
  | nil =>
    rcases h : splitNl ys with _ | ⟨h0, t⟩
    · exact absurd h (splitNl_ne_nil ys)
    · simp [splitNl, lastLine, List.modifyHead, h]
  | cons c xs' ih =>
    rcases eq_or_ne c '\n' with rfl | hc
    · rw [List.cons_append, splitNl_cons_nl, ih, splitNl_cons_nl]
      rw [show lastLine ('\n' :: xs') = lastLine xs' from by
        unfold lastLine
        rw [splitNl_cons_nl, List.getLastD_cons]]
      rcases h : splitNl xs' with _ | ⟨h0, t⟩
      · exact absurd h (splitNl_ne_nil xs')
      · simp
    · rw [List.cons_append, splitNl_cons_ne c _ hc, ih, splitNl_cons_ne c _ hc]
      rcases h : splitNl xs' with _ | ⟨h0, t⟩
      · exact absurd h (splitNl_ne_nil xs')
      cases t with
      | nil =>
        have hll : lastLine (c :: xs') = c :: h0 := by
          unfold lastLine
          rw [splitNl_cons_ne c _ hc, h]
          rfl
        have hlx : lastLine xs' = h0 := by
          unfold lastLine
          rw [h]
          rfl
        rw [hll, hlx]
        rcases hy : splitNl ys with _ | ⟨y0, u⟩
        · exact absurd hy (splitNl_ne_nil ys)
        · simp [List.modifyHead]
      | cons t0 ts =>
        have hll : lastLine (c :: xs') = lastLine xs' := by
          unfold lastLine
          rw [splitNl_cons_ne c _ hc, h]
          rw [show List.modifyHead (fun h => c :: h) (h0 :: t0 :: ts)
              = (c :: h0) :: t0 :: ts from rfl]
          simp [List.getLastD_cons]
        rw [hll]
        rw [show List.modifyHead (fun h => c :: h) (h0 :: t0 :: ts)
            = (c :: h0) :: t0 :: ts from rfl]
        rw [show ((c :: h0) :: t0 :: ts).dropLast = (c :: h0) :: (t0 :: ts).dropLast from rfl]
        rw [show (h0 :: t0 :: ts).dropLast = h0 :: (t0 :: ts).dropLast from rfl]
        rcases hy : splitNl ys with _ | ⟨y0, u⟩
        · exact absurd hy (splitNl_ne_nil ys)
        · simp [List.modifyHead]

theorem splitNl_lines_no_nl (x : List Char) :
    ∀ l ∈ splitNl x, ('\n' : Char) ∉ l := by
  induction x with
  | nil =>
    intro l hl
    simp only [splitNl, List.mem_singleton] at hl
    subst hl
    simp
  | cons c r ih =>
    intro l hl
    rcases eq_or_ne c '\n' with rfl | hc
    · rw [splitNl_cons_nl] at hl
      rcases List.mem_cons.mp hl with rfl | hl
      · simp
      · exact ih l hl
    · rw [splitNl_cons_ne c r hc] at hl
      rcases h : splitNl r with _ | ⟨h0, t⟩
      · exact absurd h (splitNl_ne_nil r)
      · rw [h] at hl
        simp only [List.modifyHead, List.mem_cons] at hl
        rcases hl with rfl | hl
        · intro hmem
          rcases List.mem_cons.mp hmem with rfl | hmem
          · exact hc rfl
          · exact ih h0 (by rw [h]; exact List.mem_cons_self _ _) hmem
        · exact ih l (by rw [h]; exact List.mem_cons_of_mem _ hl)

theorem joinNl_append (X Y : List (List Char)) (hX : X ≠ []) (hY : Y ≠ []) :
    joinNlL (X ++ Y) = joinNlL X ++ '\n' :: joinNlL Y := by
  induction X with
  | nil => exact absurd rfl hX
  | cons x X' ih =>
    cases X' with
    | nil =>
      cases Y with
      | nil => exact absurd rfl hY
      | cons y Y' => simp [joinNlL]
    | cons x2 X'' =>
      have hr : joinNlL (x :: ((x2 :: X'') ++ Y)) = x ++ '\n' :: joinNlL ((x2 :: X'') ++ Y) := by
        rcases happ : (x2 :: X'') ++ Y with _ | ⟨a, b⟩
        · simp at happ
        · rfl
      rw [List.cons_append, hr, ih (by simp)]
      rw [show joinNlL (x :: x2 :: X'') = x ++ '\n' :: joinNlL (x2 :: X'') from rfl]
      simp

theorem splitNl_joinNl (L : List (List Char)) (hL : L ≠ [])
    (h : ∀ l ∈ L, ('\n' : Char) ∉ l) : splitNl (joinNlL L) = L := by
  induction L with
  | nil => exact absurd rfl hL
  | cons x X ih =>
    cases X with
    | nil =>
      rw [show joinNlL [x] = x from rfl]
      exact splitNl_no_nl x (h x (by simp))
    | cons y Y =>
      rw [show joinNlL (x :: y :: Y) = x ++ '\n' :: joinNlL (y :: Y) from rfl]
      rw [splitNl_append_left x _ (h x (by simp))]
      rw [ih (by simp) (fun l hl => h l (List.mem_cons_of_mem _ hl))]

theorem mem_joinNl (L : List (List Char)) (l : List Char) (c : Char)
    (hl : l ∈ L) (hc : c ∈ l) : c ∈ joinNlL L := by
  induction L with
  | nil => simp at hl
  | cons x X ih =>
    cases X with
    | nil =>
      rcases List.mem_cons.mp hl with rfl | hl
      · exact hc
      · simp at hl
    | cons y Y =>
      rw [show joinNlL (x :: y :: Y) = x ++ '\n' :: joinNlL (y :: Y) from rfl]
      rcases List.mem_cons.mp hl with rfl | hl
      · exact List.mem_append_left _ hc
      · exact List.mem_append_right _ (List.mem_cons_of_mem _ (ih hl))

theorem wsOnly_emptyWsOnly (l : List Char) :
    wsOnlyNonempty (emptyWsOnly l) = false := by
  unfold emptyWsOnly
  by_cases h : wsOnlyNonempty l = true
  · rw [if_pos h]
    rfl
  · rw [if_neg h]
    exact Bool.not_eq_true _ |>.mp h

theorem no_nl_emptyWsOnly (l : List Char) (h : ('\n' : Char) ∉ l) :
    ('\n' : Char) ∉ emptyWsOnly l := by
  unfold emptyWsOnly
  split
  · simp
  · exact h


/-! ### Decided facts about the prompt literals -/

theorem part1_decomp : promptPart1.data = q1C.data ++ '\n' :: sp8C := by decide

theorem part2_decomp :
    promptPart2.data = '\n' :: '\n' :: (c2C.data ++ '\n' :: sp8C) := by decide

theorem part3_decomp :
    promptPart3.data = '\n' :: '\n' :: (c3C.data ++ '\n' :: sp8C) := by decide

theorem part4_decomp : promptPart4.data = '\n' :: sp8C := by decide

theorem q1_lines_fixed :
    (splitNl q1C.data).map emptyWsOnly = splitNl q1C.data := by decide

theorem summary_tail_ne_nil : (splitNl DEFAULT_SUMMARY.data).tail ≠ [] := by decide

theorem summary_tail_head :
    (splitNl DEFAULT_SUMMARY.data).tail.headD [] = zeroLine := by decide

theorem summary_head_content :
    hasContent ((splitNl DEFAULT_SUMMARY.data).headD []) = true := by decide

theorem summary_tail_not_ws :
    (splitNl DEFAULT_SUMMARY.data).tail.all (fun l => !wsOnlyNonempty l) = true := by
  decide

theorem sample_head_content :
    hasContent ((splitNl DEFAULT_SAMPLE_LETTER.data).headD []) = true := by decide

theorem sample_tail_not_ws :
    (splitNl DEFAULT_SAMPLE_LETTER.data).tail.all (fun l => !wsOnlyNonempty l) = true := by
  decide

theorem sample_ne_nil : DEFAULT_SAMPLE_LETTER.data ≠ [] := by decide

theorem sample_last_char :
    pyIsSpace (DEFAULT_SAMPLE_LETTER.data.getLastD ' ') = false := by decide

/-! ### Splitting and joining around the template's newlines -/

theorem splitNl_chunk (xs ys : List Char) :
    splitNl (xs ++ '\n' :: ys) = splitNl xs ++ splitNl ys := by
  rw [splitNl_glue, splitNl_cons_nl]
  simp only [List.modifyHead, List.append_nil]
  unfold lastLine
  exact dropLast_getLastD_cons (splitNl xs) (splitNl_ne_nil xs) (splitNl ys)

theorem splitNl_prefix_line (p xs : List Char) (hp : ('\n' : Char) ∉ p) :
    splitNl (p ++ xs) = (splitNl xs).modifyHead (fun h => p ++ h) := by
  rw [splitNl_glue]
  unfold lastLine
  rw [splitNl_no_nl p hp]
  simp

theorem joinNl_append_cons (X : List (List Char)) (hX : X ≠ []) (y : List Char)
    (Y : List (List Char)) :
    joinNlL (X ++ y :: Y) = joinNlL X ++ '\n' :: joinNlL (y :: Y) :=
  joinNl_append X (y :: Y) hX (by simp)

theorem joinNl_chunk (x z : List Char) (xs Z : List (List Char)) :
    joinNlL (x :: (xs ++ z :: Z)) = joinNlL (x :: xs) ++ '\n' :: joinNlL (z :: Z) := by
  rw [show x :: (xs ++ z :: Z) = (x :: xs) ++ z :: Z from rfl]
  exact joinNl_append (x :: xs) (z :: Z) (by simp) (by simp)

theorem joinNl_break2 (a z : List Char) (Z : List (List Char)) :
    joinNlL ([] :: a :: z :: Z) = '\n' :: (a ++ '\n' :: joinNlL (z :: Z)) := by
  rw [show joinNlL ([] :: a :: z :: Z) = [] ++ '\n' :: joinNlL (a :: z :: Z) from rfl]
  rw [show joinNlL (a :: z :: Z) = a ++ '\n' :: joinNlL (z :: Z) from rfl]
  rfl

theorem joinNl_cons_prepend (p x : List Char) (xs : List (List Char)) :
    joinNlL ((p ++ x) :: xs) = p ++ joinNlL (x :: xs) := by
  cases xs with
  | nil => rfl
  | cons y ys =>
    rw [show joinNlL ((p ++ x) :: y :: ys) = (p ++ x) ++ '\n' :: joinNlL (y :: ys) from rfl]
    rw [show joinNlL (x :: y :: ys) = x ++ '\n' :: joinNlL (y :: ys) from rfl]
    rw [List.append_assoc]

/-! ### Lines whose whitespace normalisation is the identity -/

theorem emptyWsOnly_of_not_ws (l : List Char) (h : wsOnlyNonempty l = false) :
    emptyWsOnly l = l := by
  unfold emptyWsOnly
  rw [h]
  simp

theorem map_emptyWsOnly_id (X : List (List Char))
    (h : ∀ l ∈ X, wsOnlyNonempty l = false) : X.map emptyWsOnly = X := by
  induction X with
  | nil => rfl
  | cons x xs ih =>
    rw [List.map_cons, emptyWsOnly_of_not_ws x (h x (List.mem_cons_self x xs)),
      ih (fun l hl => h l (List.mem_cons_of_mem x hl))]

theorem wsOnly_append_content (p l : List Char) (h : hasContent l = true) :
    wsOnlyNonempty (p ++ l) = false := by
  unfold hasContent at h
  obtain ⟨c, hc, hcb⟩ := List.any_eq_true.mp h
  unfold wsOnlyNonempty
  have hall : ((p ++ l).all fun c => c = ' ' || c = '\t') = false := by
    cases hv : ((p ++ l).all fun c => c = ' ' || c = '\t') with
    | false => rfl
    | true =>
      have := List.all_eq_true.mp hv c (List.mem_append_right p hc)
      rw [this] at hcb
      simp at hcb
  rw [hall]
  simp

/-! ### The dedent margin of the prompt is always empty -/

theorem pyStartsWith_nil (l : List Char) : pyStartsWith l [] = true := by
  cases l <;> rfl

theorem marginStep_zero (m : Option (List Char)) (z : List Char)
    (hz : hasContent z = true) (hi : lineIndent z = []) : marginStep m z = some [] := by
  unfold marginStep
  rw [if_pos hz]
  dsimp only
  rw [hi]
  cases m with
  | none => rfl
  | some mg =>
    dsimp only
    cases mg with
    | nil => simp [pyStartsWith, List.isPrefixOf]
    | cons a as =>
      rw [if_neg (by rw [show pyStartsWith ([] : List Char) (a :: as) = false from rfl]; simp)]
      rw [if_pos (pyStartsWith_nil (a :: as))]

theorem marginStep_absorb (l : List Char) : marginStep (some []) l = some [] := by
  unfold marginStep
  by_cases h : hasContent l = true
  · rw [if_pos h]
    dsimp only
    rw [if_pos (pyStartsWith_nil (lineIndent l))]
  · rw [if_neg h]

theorem foldl_margin_absorb (B : List (List Char)) :
    B.foldl marginStep (some []) = some [] := by
  induction B with
  | nil => rfl
  | cons b bs ih =>
    rw [List.foldl_cons, marginStep_absorb]
    exact ih

theorem computeMargin_of_mem_zero (lines : List (List Char)) (z : List Char)
    (hz : z ∈ lines) (hc : hasContent z = true) (hi : lineIndent z = []) :
    computeMargin lines = some [] := by
  obtain ⟨A, B, hAB⟩ := List.append_of_mem hz
  unfold computeMargin
  rw [hAB, show A ++ z :: B = (A ++ [z]) ++ B from by simp, List.foldl_append,
    List.foldl_append]
  rw [show List.foldl marginStep (List.foldl marginStep none A) [z] = some [] from by
    simp only [List.foldl_cons, List.foldl_nil]
    exact marginStep_zero _ z hc hi]
  exact foldl_margin_absorb B

/-! ### The line decomposition of the interpolated prompt -/

theorem promptArg_lines (jd : String) :
    splitNl (promptArg jd).data =
      splitNl q1C.data ++
        ((splitNl jd.data).modifyHead (fun h => sp8C ++ h) ++
          ([] :: c2C.data ::
            ((splitNl DEFAULT_SUMMARY.data).modifyHead (fun h => sp8C ++ h) ++
              ([] :: c3C.data ::
                ((splitNl DEFAULT_SAMPLE_LETTER.data).modifyHead (fun h => sp8C ++ h) ++
                  [sp8C]))))) := by
  have hdata : (promptArg jd).data =
      q1C.data ++ '\n' :: ((sp8C ++ jd.data) ++ '\n' ::
        ('\n' :: (c2C.data ++ '\n' :: ((sp8C ++ DEFAULT_SUMMARY.data) ++ '\n' ::
          ('\n' :: (c3C.data ++ '\n' :: ((sp8C ++ DEFAULT_SAMPLE_LETTER.data) ++ '\n' ::
            sp8C))))))) := by
    unfold promptArg
    simp only [String.data_append]
    rw [part1_decomp, part2_decomp, part3_decomp, part4_decomp]
    simp [List.append_assoc]
  rw [hdata]
  rw [splitNl_chunk]
  rw [splitNl_chunk]
  rw [splitNl_cons_nl]
  rw [splitNl_chunk]
  rw [splitNl_chunk]
  rw [splitNl_cons_nl]
  rw [splitNl_chunk]
  rw [splitNl_chunk]
  rw [splitNl_no_nl sp8C (by decide)]
  rw [splitNl_no_nl c2C.data (by decide)]
  rw [splitNl_no_nl c3C.data (by decide)]
  rw [splitNl_prefix_line sp8C jd.data (by decide)]
  rw [splitNl_prefix_line sp8C DEFAULT_SUMMARY.data (by decide)]
  rw [splitNl_prefix_line sp8C DEFAULT_SAMPLE_LETTER.data (by decide)]
  simp only [List.singleton_append, List.cons_append, List.nil_append, List.append_assoc]

theorem margin_prompt (jd : String) :
    computeMargin ((splitNl (promptArg jd).data).map emptyWsOnly) = some [] := by
  have h1 : zeroLine ∈ (splitNl DEFAULT_SUMMARY.data).tail := by
    rw [← summary_tail_head]
    exact headD_mem _ summary_tail_ne_nil _
  have h2 : zeroLine ∈ (splitNl DEFAULT_SUMMARY.data).modifyHead (fun h => sp8C ++ h) := by
    cases hS : splitNl DEFAULT_SUMMARY.data with
    | nil => exact absurd hS (splitNl_ne_nil _)
    | cons sh st =>
      rw [hS] at h1
      simp only [List.tail_cons] at h1
      simp only [List.modifyHead]
      exact List.mem_cons_of_mem _ h1
  have h3 : zeroLine ∈ splitNl (promptArg jd).data := by
    rw [promptArg_lines]
    exact List.mem_append_right _ (List.mem_append_right _ (List.mem_cons_of_mem _
      (List.mem_cons_of_mem _ (List.mem_append_left _ h2))))
  have h4 : zeroLine ∈ (splitNl (promptArg jd).data).map emptyWsOnly := by
    have h5 := List.mem_map_of_mem emptyWsOnly h3
    rw [show emptyWsOnly zeroLine = zeroLine from by decide] at h5
    exact h5
  exact computeMargin_of_mem_zero _ zeroLine h4 (by decide) (by decide)

theorem build_prompt_data (jd : String) :
    (build_prompt jd).data =
      pyStripL (joinNlL ((splitNl (promptArg jd).data).map emptyWsOnly)) := by
  have h1 : pyDedent (promptArg jd) =
      String.mk (joinNlL ((splitNl (promptArg jd).data).map emptyWsOnly)) := by
    simp only [pyDedent]
    rw [margin_prompt jd]
    rfl
  unfold build_prompt pyStrip
  rw [h1, data_mk, data_mk]

/-! ### Stripping preserves anchored middles -/

theorem dropWhile_ne_nil_of_witness (l : List Char) (p : Char → Bool) (c : Char)
    (hc : c ∈ l) (h : p c = false) : l.dropWhile p ≠ [] := by
  intro hnil
  rw [List.dropWhile_eq_nil_iff] at hnil
  have := hnil c hc
  rw [h] at this
  cases this

theorem dropWhile_keep (u m v : List Char)
    (h : (∃ c ∈ u, pyIsSpace c = false) ∨ (m ≠ [] ∧ pyIsSpace (m.headD ' ') = false)) :
    ∃ u₁, (u ++ (m ++ v)).dropWhile pyIsSpace = u₁ ++ (m ++ v) := by
  rcases h with ⟨c, hc, hcw⟩ | ⟨hm, hmh⟩
  · refine ⟨u.dropWhile pyIsSpace, ?_⟩
    rw [List.dropWhile_append]
    have hne := dropWhile_ne_nil_of_witness u pyIsSpace c hc hcw
    rw [if_neg (by simpa using hne)]
  · cases m with
    | nil => exact absurd rfl hm
    | cons mh mt =>
      have hmh' : pyIsSpace mh = false := hmh
      rw [List.dropWhile_append]
      by_cases hu : ((u.dropWhile pyIsSpace).isEmpty = true)
      · refine ⟨[], ?_⟩
        rw [if_pos hu]
        simp [List.dropWhile_cons, hmh']
      · exact ⟨u.dropWhile pyIsSpace, by rw [if_neg hu]⟩

theorem strip_keep_infix (xs u m v : List Char) (hx : xs = u ++ (m ++ v))
    (hL : (∃ c ∈ u, pyIsSpace c = false) ∨ (m ≠ [] ∧ pyIsSpace (m.headD ' ') = false))
    (hR : (∃ c ∈ v, pyIsSpace c = false) ∨ (m ≠ [] ∧ pyIsSpace (m.getLastD ' ') = false)) :
    m <:+: pyStripL xs := by
  subst hx
  obtain ⟨u₁, h1⟩ := dropWhile_keep u m v hL
  have hR' : (∃ c ∈ v.reverse, pyIsSpace c = false) ∨
      (m.reverse ≠ [] ∧ pyIsSpace (m.reverse.headD ' ') = false) := by
    rcases hR with ⟨c, hc, hw⟩ | ⟨hm, hw⟩
    · exact Or.inl ⟨c, List.mem_reverse.mpr hc, hw⟩
    · refine Or.inr ⟨by simpa using hm, ?_⟩
      rw [List.headD_eq_head?, List.head?_reverse, ← List.getLastD_eq_getLast?]
      exact hw
  obtain ⟨v₁, h2⟩ := dropWhile_keep v.reverse m.reverse u₁.reverse hR'
  unfold pyStripL
  rw [h1]
  rw [show (u₁ ++ (m ++ v)).reverse = v.reverse ++ (m.reverse ++ u₁.reverse) from by simp]
  rw [h2]
  refine ⟨u₁, v₁.reverse, ?_⟩
  simp

theorem pyStripL_infix_self (xs : List Char) : pyStripL xs <:+: xs := by
  obtain ⟨a, ha⟩ := List.dropWhile_suffix (l := xs) pyIsSpace
  obtain ⟨b, hb⟩ :=
    List.dropWhile_suffix (l := (xs.dropWhile pyIsSpace).reverse) pyIsSpace
  unfold pyStripL
  refine ⟨a, b.reverse, ?_⟩
  have hd1 : xs.dropWhile pyIsSpace =
      ((xs.dropWhile pyIsSpace).reverse.dropWhile pyIsSpace).reverse ++ b.reverse := by
    rw [show ((xs.dropWhile pyIsSpace).reverse.dropWhile pyIsSpace).reverse ++ b.reverse =
      (b ++ (xs.dropWhile pyIsSpace).reverse.dropWhile pyIsSpace).reverse from by simp]
    rw [hb, List.reverse_reverse]
  rw [List.append_assoc, ← hd1, ha]


/-- C8: the prompt built by `build_prompt` keeps the job description, the
candidate summary (`DEFAULT_SUMMARY`) and the sample letter
(`DEFAULT_SAMPLE_LETTER`) verbatim as contiguous substrings — amended:
this holds when the job description's first line has non-whitespace
content and none of its lines is whitespace-only, because
`textwrap.dedent` blanks whitespace-only lines of the interpolated
template (the summary and sample survive unconditionally under the same
proof because the template's own glue lines satisfy these conditions). -/
theorem C8_prompt_contains (jd : String)
    (h1 : hasContent ((splitNl jd.data).headD []) = true)
    (h2 : ∀ l ∈ (splitNl jd.data).tail, wsOnlyNonempty l = false) :
    jd.data <:+: (build_prompt jd).data ∧
      DEFAULT_SUMMARY.data <:+: (build_prompt jd).data ∧
        DEFAULT_SAMPLE_LETTER.data <:+: (build_prompt jd).data := by
  cases hjd : splitNl jd.data with
  | nil => exact absurd hjd (splitNl_ne_nil _)
  | cons jh jt =>
  cases hS : splitNl DEFAULT_SUMMARY.data with
  | nil => exact absurd hS (splitNl_ne_nil _)
  | cons sh st =>
  cases hL : splitNl DEFAULT_SAMPLE_LETTER.data with
  | nil => exact absurd hL (splitNl_ne_nil _)
  | cons lh lt =>
  have h1' : hasContent jh = true := by
    rw [hjd] at h1
    simpa using h1
  have h2' : ∀ l ∈ jt, wsOnlyNonempty l = false := by
    intro l hl
    exact h2 l (by rw [hjd]; simpa using hl)
  have hsh : hasContent sh = true := by
    have h := summary_head_content
    rw [hS] at h
    simpa using h
  have hst : ∀ l ∈ st, wsOnlyNonempty l = false := by
    have h := summary_tail_not_ws
    rw [hS] at h
    simp only [List.tail_cons, List.all_eq_true] at h
    intro l hl
    simpa using h l hl
  have hlh : hasContent lh = true := by
    have h := sample_head_content
    rw [hL] at h
    simpa using h
  have hlt : ∀ l ∈ lt, wsOnlyNonempty l = false := by
    have h := sample_tail_not_ws
    rw [hL] at h
    simp only [List.tail_cons, List.all_eq_true] at h
    intro l hl
    simpa using h l hl
  have hmap : (splitNl (promptArg jd).data).map emptyWsOnly =
      splitNl q1C.data ++
        ((sp8C ++ jh) :: (jt ++
          ([] :: c2C.data ::
            ((sp8C ++ sh) :: (st ++
              ([] :: c3C.data ::
                ((sp8C ++ lh) :: (lt ++ [[]])))))))) := by
    rw [promptArg_lines jd, hjd, hS, hL]
    simp only [List.modifyHead, List.map_append, List.map_cons, List.map_nil]
    rw [q1_lines_fixed]
    rw [map_emptyWsOnly_id jt h2', map_emptyWsOnly_id st hst, map_emptyWsOnly_id lt hlt]
    rw [emptyWsOnly_of_not_ws _ (wsOnly_append_content sp8C jh h1')]
    rw [emptyWsOnly_of_not_ws _ (wsOnly_append_content sp8C sh hsh)]
    rw [emptyWsOnly_of_not_ws _ (wsOnly_append_content sp8C lh hlh)]
    rw [show emptyWsOnly ([] : List Char) = [] from by decide]
    rw [show emptyWsOnly c2C.data = c2C.data from by decide]
    rw [show emptyWsOnly c3C.data = c3C.data from by decide]
    rw [show emptyWsOnly sp8C = [] from by decide]
    simp only [List.cons_append, List.nil_append, List.append_assoc]
  have hjoin : joinNlL ((splitNl (promptArg jd).data).map emptyWsOnly) =
      q1C.data ++ '\n' :: ((sp8C ++ jd.data) ++ '\n' ::
        ('\n' :: (c2C.data ++ '\n' :: ((sp8C ++ DEFAULT_SUMMARY.data) ++ '\n' ::
          ('\n' :: (c3C.data ++ '\n' :: ((sp8C ++ DEFAULT_SAMPLE_LETTER.data) ++ '\n' ::
            ([] : List Char)))))))) := by
    rw [hmap]
    rw [joinNl_append_cons (splitNl q1C.data) (splitNl_ne_nil _)]
    rw [joinNl_chunk]
    rw [joinNl_break2]
    rw [joinNl_chunk]
    rw [joinNl_break2]
    rw [joinNl_chunk]
    rw [show joinNlL [([] : List Char)] = ([] : List Char) from rfl]
    rw [joinNl_cons_prepend, joinNl_cons_prepend, joinNl_cons_prepend]
    rw [← hjd, ← hS, ← hL]
    rw [joinNl_splitNl, joinNl_splitNl, joinNl_splitNl, joinNl_splitNl]
  rw [build_prompt_data jd]
  refine ⟨?_, ?_, ?_⟩
  · exact strip_keep_infix _ (q1C.data ++ '\n' :: sp8C) jd.data
      ('\n' :: '\n' :: (c2C.data ++ '\n' :: ((sp8C ++ DEFAULT_SUMMARY.data) ++ '\n' ::
        ('\n' :: (c3C.data ++ '\n' :: ((sp8C ++ DEFAULT_SAMPLE_LETTER.data) ++ '\n' ::
          ([] : List Char)))))))
      (by rw [hjoin]; simp [List.append_assoc])
      (Or.inl ⟨'W', List.mem_append_left _ (by decide), by decide⟩)
      (Or.inl ⟨'C', List.mem_cons_of_mem _ (List.mem_cons_of_mem _
        (List.mem_append_left _ (by decide))), by decide⟩)
  · exact strip_keep_infix _
      (q1C.data ++ '\n' :: ((sp8C ++ jd.data) ++ '\n' ::
        ('\n' :: (c2C.data ++ '\n' :: sp8C))))
      DEFAULT_SUMMARY.data
      ('\n' :: '\n' :: (c3C.data ++ '\n' :: ((sp8C ++ DEFAULT_SAMPLE_LETTER.data) ++ '\n' ::
        ([] : List Char))))
      (by rw [hjoin]; simp [List.append_assoc])
      (Or.inl ⟨'W', List.mem_append_left _ (by decide), by decide⟩)
      (Or.inl ⟨'S', List.mem_cons_of_mem _ (List.mem_cons_of_mem _
        (List.mem_append_left _ (by decide))), by decide⟩)
  · exact strip_keep_infix _
      (q1C.data ++ '\n' :: ((sp8C ++ jd.data) ++ '\n' ::
        ('\n' :: (c2C.data ++ '\n' :: ((sp8C ++ DEFAULT_SUMMARY.data) ++ '\n' ::
          ('\n' :: (c3C.data ++ '\n' :: sp8C)))))))
      DEFAULT_SAMPLE_LETTER.data
      (['\n'])
      (by rw [hjoin]; simp [List.append_assoc])
      (Or.inl ⟨'W', List.mem_append_left _ (by decide), by decide⟩)
      (Or.inr ⟨sample_ne_nil, sample_last_char⟩)

/-- Witness for C8 at the job description
"Software Engineer at Acme Corp, Austin". -/
theorem C8_witness :
    hasContent ((splitNl ("Software Engineer at Acme Corp, Austin").data).headD []) = true ∧
      (∀ l ∈ (splitNl ("Software Engineer at Acme Corp, Austin").data).tail,
        wsOnlyNonempty l = false) ∧
      ("Software Engineer at Acme Corp, Austin").data <:+:
        (build_prompt ("Software Engineer at Acme Corp, Austin")).data ∧
      DEFAULT_SUMMARY.data <:+:
        (build_prompt ("Software Engineer at Acme Corp, Austin")).data ∧
      DEFAULT_SAMPLE_LETTER.data <:+:
        (build_prompt ("Software Engineer at Acme Corp, Austin")).data := by
  have h := C8_prompt_contains ("Software Engineer at Acme Corp, Austin")
    (by decide) (by decide)
  exact ⟨by decide, by decide, h.1, h.2.1, h.2.2⟩

/-- C8 counterexample: for the job description "a\n \nb", whose middle
line is whitespace-only, the prompt does not contain the job description
verbatim — `textwrap.dedent` blanks the " " line of the interpolated
template, so the spec's unconditional verbatim-containment claim fails. -/
theorem C8_counterexample :
    ¬ (("a\n \nb").data <:+: (build_prompt ("a\n \nb")).data) := by
  intro h
  have h2 : ['\n', ' ', '\n'] <:+: (build_prompt ("a\n \nb")).data :=
    (show (['\n', ' ', '\n'] : List Char) <:+: ("a\n \nb").data by decide).trans h
  rw [build_prompt_data] at h2
  have h3 : ['\n', ' ', '\n'] <:+:
      joinNlL ((splitNl (promptArg ("a\n \nb")).data).map emptyWsOnly) :=
    h2.trans (pyStripL_infix_self _)
  obtain ⟨u, v, huv⟩ := h3
  have hmemM : ∀ l ∈ (splitNl (promptArg ("a\n \nb")).data).map emptyWsOnly,
      ('\n' : Char) ∉ l := by
    intro l hl
    obtain ⟨l', hl', rfl⟩ := List.mem_map.mp hl
    exact no_nl_emptyWsOnly l' (splitNl_lines_no_nl _ l' hl')
  have hMne : (splitNl (promptArg ("a\n \nb")).data).map emptyWsOnly ≠ [] := by
    intro hnil
    exact splitNl_ne_nil _ (List.map_eq_nil_iff.mp hnil)
  have hsplitM : splitNl (joinNlL ((splitNl (promptArg ("a\n \nb")).data).map emptyWsOnly)) =
      (splitNl (promptArg ("a\n \nb")).data).map emptyWsOnly :=
    splitNl_joinNl _ hMne hmemM
  have hmem : [' '] ∈ (splitNl (promptArg ("a\n \nb")).data).map emptyWsOnly := by
    rw [← hsplitM, ← huv]
    rw [show u ++ ['\n', ' ', '\n'] ++ v = u ++ '\n' :: (' ' :: '\n' :: v) from by simp]
    rw [splitNl_chunk]
    apply List.mem_append_right
    rw [splitNl_cons_ne ' ' _ (by decide), splitNl_cons_nl]
    simp [List.modifyHead]
  obtain ⟨l', hl', hEq⟩ := List.mem_map.mp hmem
  have hws := wsOnly_emptyWsOnly l'
  rw [hEq] at hws
  exact absurd hws (by decide)

end CoverLetters
